import Mathlib

/-!
# Market: a shallow embedding of `market.go` and `market_basic.go`

Modelling conventions.

* `Money` is Go's `uint`; it is a natural number and every arithmetic
  operation that can leave the range is reduced modulo `2 ^ 64`.
* `GoodType` and `int` values are integers.
* Pointers to offers and accounts are addresses (natural numbers) into a heap.
  The heap of offers is never written by the market; the heap of accounts is.
  The account of an offer may be the nil pointer (the tests build offers
  without an account), so it is an `Option`.
* Offers, goods and counters handed to the market are non-nil.
* `sync.Mutex` is a flag.  Execution is sequential, so `Lock` on a mutex that
  is already held never returns; this is the outcome `blocked`.
-/

namespace Market

/-- Width in bits of Go's `uint` on the 64-bit targets. -/
def wordBits : Nat := 64

/-- Number of values of type `Money` (`type Money uint`). -/
def moneyMod : Nat := 2 ^ wordBits

/-- The constant `Meat` (`iota` = 0). -/
def Meat : Int := 0

/-- The constant `Fur` (`iota` = 1). -/
def Fur : Int := 1

/-- The error values the package can return, one constructor per construction site. -/
inductive MarketError where
  /-- The value `errors.New("Not enough money in account")` of `Withdraw`. -/
  | notEnoughMoney
  /-- The value `errors.New("Basic market only allows SellerOffers with a single good")`. -/
  | singleGoodOnly
  /-- The value `&invalidGoodTypeErr{}`. -/
  | invalidGoodType
  /-- The value `&noSellerOffersErr{}`. -/
  | noSellerOffers
  /-- The value `&marketDemandSatisfiedErr{}`. -/
  | marketDemandSatisfied
  /-- The value `errors.New("No offers available")`. -/
  | noOffersAvailable
  /-- The value `errors.New("Market offer is no longer current")`. -/
  | offerNoLongerCurrent
  deriving DecidableEq, Repr

deriving instance DecidableEq for Except

/-- Result of a call that may wait on a mutex. -/
inductive Outcome (α : Type) where
  /-- The call returned with this value. -/
  | returned (a : α)
  /-- The call waits forever for a mutex that is held. -/
  | blocked
  deriving DecidableEq, Repr

/-- The struct `SellerAccount`: a balance and the embedded mutex (`true` = held). -/
structure SellerAccount where
  balance : Nat
  locked : Bool
  deriving DecidableEq, Repr

/-- The struct `Good`; the field `Type` is written `Type_`. -/
structure Good where
  Type_ : Int
  Refinement : Int
  deriving DecidableEq, Repr

/-- The struct `SellerOffer`; `account` is a pointer that may be nil. -/
structure SellerOffer where
  goods : List Good
  account : Option Nat
  price : Nat
  deriving DecidableEq, Repr

/-- The struct `MarketCounter`; `sellerOffer` is the address of the offer. -/
structure MarketCounter where
  sellerOffer : Nat
  price : Nat
  deriving DecidableEq, Repr

/-- The struct `BasicMarket`; `account` is the address of the market account and
`sellerOffers` holds addresses of offers. -/
structure BasicMarket where
  goodType : Int
  maxOffer : Nat
  demand : Int
  bought : List Good
  account : Nat
  sellerOffers : List Nat
  currentOffer : Option MarketCounter
  deriving DecidableEq, Repr

/-- The memory the market works on: the offers and accounts behind the pointers,
and the market object itself. -/
structure State where
  offers : Nat → SellerOffer
  accounts : Nat → SellerAccount
  market : BasicMarket

/-- Constructor `NewSellerAccount`: the given balance and a fresh mutex. -/
def NewSellerAccount (balance : Nat) : SellerAccount :=
  { balance := balance, locked := false }

/-- Method `SellerAccount.Balance`. -/
def SellerAccount.Balance (a : SellerAccount) : Nat :=
  a.balance

/-- Method `SellerAccount.Withdraw`: the account afterwards and the returned error. -/
def SellerAccount.Withdraw (a : SellerAccount) (m : Nat) : SellerAccount × Option MarketError :=
  if m ≤ a.balance then
    ({ a with balance := a.balance - m }, none)
  else
    (a, some MarketError.notEnoughMoney)

/-- Method `SellerAccount.Deposit`: `a.balance += m` on `uint`. -/
def SellerAccount.Deposit (a : SellerAccount) (m : Nat) : SellerAccount :=
  { a with balance := (a.balance + m) % moneyMod }

/-- Method `Lock` of the embedded mutex. -/
def SellerAccount.Lock (a : SellerAccount) : Outcome SellerAccount :=
  if a.locked then Outcome.blocked else Outcome.returned { a with locked := true }

/-- Method `Unlock` of the embedded mutex (only ever called while the lock is held). -/
def SellerAccount.Unlock (a : SellerAccount) : SellerAccount :=
  { a with locked := false }

/-- Writes account `v` at address `p`. -/
def setAccount (accounts : Nat → SellerAccount) (p : Nat) (v : SellerAccount) :
    Nat → SellerAccount :=
  fun q => if q = p then v else accounts q

/-- Function `Transfer(amount, payer, payee)` on the heap of accounts.
The payee is received and never used. -/
def Transfer (amount : Nat) (payer : Nat) (_payee : Option Nat)
    (accounts : Nat → SellerAccount) : Outcome ((Nat → SellerAccount) × Option MarketError) :=
  match (accounts payer).Lock with
  | Outcome.blocked => Outcome.blocked
  | Outcome.returned a1 =>
    let cAmount := amount
    let a2 := a1.Deposit cAmount
    match a2.Withdraw amount with
    | (a3, some err) => Outcome.returned (setAccount accounts payer a3, some err)
    | (a3, none) => Outcome.returned (setAccount accounts payer a3.Unlock, none)

/-- Method `ByOfferPrice.Less` on two offers. -/
def ByOfferPrice.Less (offers : Nat → SellerOffer) (i j : Nat) : Bool :=
  decide ((offers i).price < (offers j).price)

/-- Puts `x`, which stood before every element of the sorted `l`, into place:
after the elements that are `Less` than it and before all others. -/
def stableInsert (offers : Nat → SellerOffer) (x : Nat) : List Nat → List Nat
  | [] => [x]
  | y :: l =>
    if ByOfferPrice.Less offers y x then y :: stableInsert offers x l
    else x :: y :: l

/-- The call `sort.Stable(ByOfferPrice(l))` of the Go library: ascending by
`Less`, elements that are not `Less` either way keep their order.  That
contract fixes the result; it is computed here by insertion. -/
def sortStable (offers : Nat → SellerOffer) : List Nat → List Nat
  | [] => []
  | x :: l => stableInsert offers x (sortStable offers l)

/-- Conversion `Money(i)` of an `int` to `uint`. -/
def moneyOfInt (i : Int) : Nat :=
  (i % (moneyMod : Int)).toNat

/-- Constructor `NewBasicMarket`; `acct` is the address at which the new market
account is allocated. -/
def NewBasicMarket (offers : Nat → SellerOffer) (accounts : Nat → SellerAccount) (acct : Nat)
    (goodType : Int) (maxOffer demand : Int) (balance : Nat) : State :=
  { offers := offers
    accounts := setAccount accounts acct (NewSellerAccount balance)
    market :=
      { goodType := goodType
        maxOffer := moneyOfInt maxOffer
        demand := demand
        bought := []
        account := acct
        sellerOffers := []
        currentOffer := none } }

/-- Method `BasicMarket.AddOffer`: the state afterwards and the returned error.
The last branch is the out-of-range read of `o.goods[0]`, which the length test
above it excludes. -/
def AddOffer (s : State) (o : Nat) : State × Option MarketError :=
  if (s.offers o).goods.length ≠ 1 then
    (s, some MarketError.singleGoodOnly)
  else
    match (s.offers o).goods.head? with
    | some g =>
      if g.Type_ ≠ s.market.goodType then
        (s, some MarketError.invalidGoodType)
      else
        ({ s with market := { s.market with sellerOffers := s.market.sellerOffers ++ [o] } },
          none)
    | none => (s, some MarketError.singleGoodOnly)

/-- Method `BasicMarket.ConsiderOffers`: the state afterwards and either the
error or the counter that is returned.  The branch for an empty sorted slice is
the out-of-range read of `m.sellerOffers[0]`, which the length test excludes. -/
def ConsiderOffers (s : State) : State × Except MarketError MarketCounter :=
  if s.market.sellerOffers.length = 0 then
    (s, Except.error MarketError.noSellerOffers)
  else if (s.market.bought.length : Int) ≥ s.market.demand then
    (s, Except.error MarketError.marketDemandSatisfied)
  else
    match sortStable s.offers s.market.sellerOffers with
    | [] => (s, Except.error MarketError.noSellerOffers)
    | best :: rest =>
      let marketCounter :=
        if (s.offers best).price > s.market.maxOffer then s.market.maxOffer
        else (s.offers best).price
      let marketCounter :=
        if marketCounter > (s.accounts s.market.account).Balance then
          (s.accounts s.market.account).Balance
        else marketCounter
      let c : MarketCounter := { price := marketCounter, sellerOffer := best }
      ({ s with market := { s.market with currentOffer := some c, sellerOffers := rest } },
        Except.ok c)

/-- Method `BasicMarket.TransactOffer`: the state afterwards and the returned error. -/
def TransactOffer (s : State) (c : MarketCounter) : Outcome (State × Option MarketError) :=
  match s.market.currentOffer with
  | none => Outcome.returned (s, some MarketError.noOffersAvailable)
  | some cur =>
    if cur.sellerOffer ≠ c.sellerOffer then
      Outcome.returned (s, some MarketError.offerNoLongerCurrent)
    else if (s.market.bought.length : Int) ≥ s.market.demand then
      Outcome.returned (s, some MarketError.marketDemandSatisfied)
    else
      match Transfer c.price s.market.account (s.offers c.sellerOffer).account s.accounts with
      | Outcome.blocked => Outcome.blocked
      | Outcome.returned (accounts, some err) =>
        Outcome.returned ({ s with accounts := accounts }, some err)
      | Outcome.returned (accounts, none) =>
        Outcome.returned
          ({ s with
              accounts := accounts
              market :=
                { s.market with
                  bought := s.market.bought ++ (s.offers c.sellerOffer).goods
                  currentOffer := none } }, none)

/-- One call of a method of the market by a client. -/
inductive Call where
  /-- The call `m.AddOffer(o)`. -/
  | addOffer (o : Nat)
  /-- The call `m.ConsiderOffers()`. -/
  | considerOffers
  /-- The call `m.TransactOffer(c)`. -/
  | transactOffer (c : MarketCounter)
  deriving DecidableEq, Repr

/-- Performs one call: the state afterwards and what the call returned (the
error, or the counter of `ConsiderOffers`, or nothing). -/
def perform (s : State) : Call → Outcome (State × Except MarketError (Option MarketCounter))
  | Call.addOffer o =>
    match AddOffer s o with
    | (s1, none) => Outcome.returned (s1, Except.ok none)
    | (s1, some err) => Outcome.returned (s1, Except.error err)
  | Call.considerOffers =>
    match ConsiderOffers s with
    | (s1, Except.ok c) => Outcome.returned (s1, Except.ok (some c))
    | (s1, Except.error err) => Outcome.returned (s1, Except.error err)
  | Call.transactOffer c =>
    match TransactOffer s c with
    | Outcome.blocked => Outcome.blocked
    | Outcome.returned (s1, none) => Outcome.returned (s1, Except.ok none)
    | Outcome.returned (s1, some err) => Outcome.returned (s1, Except.error err)

/-- Performs the calls one after the other; the state after the last one, or
`blocked` when one of them never returns. -/
def runCalls (s : State) : List Call → Outcome State
  | [] => Outcome.returned s
  | k :: ks =>
    match perform s k with
    | Outcome.blocked => Outcome.blocked
    | Outcome.returned (s1, _) => runCalls s1 ks

/-- The offers admitted by the successful `AddOffer` calls of a run, in order. -/
def admitted (s : State) : List Call → List Nat
  | [] => []
  | k :: ks =>
    match perform s k with
    | Outcome.blocked => []
    | Outcome.returned (s1, r) =>
      match k, r with
      | Call.addOffer o, Except.ok _ => o :: admitted s1 ks
      | _, _ => admitted s1 ks

/-- The offers referenced by the counters that the successful `ConsiderOffers`
calls of a run returned, in order. -/
def considered (s : State) : List Call → List Nat
  | [] => []
  | k :: ks =>
    match perform s k with
    | Outcome.blocked => []
    | Outcome.returned (s1, r) =>
      match k, r with
      | Call.considerOffers, Except.ok (some c) => c.sellerOffer :: considered s1 ks
      | _, _ => considered s1 ks

/-- Value of a call that returned. -/
def Outcome.value? {α : Type} : Outcome α → Option α
  | Outcome.returned a => some a
  | Outcome.blocked => none

/-- The offer at address `o` carries exactly one good, of the kind the market handles. -/
def SingleGood (s : State) (o : Nat) : Prop :=
  ∃ g, (s.offers o).goods = [g] ∧ g.Type_ = s.market.goodType

/-- Invariant of the market: no more goods bought than demanded, and every
pending offer and the offer of the current counter carry one good of the
market kind. -/
def Invariant (s : State) : Prop :=
  (s.market.bought.length : Int) ≤ s.market.demand ∧
    (∀ o ∈ s.market.sellerOffers, SingleGood s o) ∧
    (∀ cur, s.market.currentOffer = some cur → SingleGood s cur.sellerOffer)

/-! ## Data of the test scenarios of `market_test.go` -/

/-- Offers as `createSellerOffer` builds them, at addresses 1 to 4: Meat at
price 1, Meat at price 2, Fur at price 1, Meat at price 1.  The first two have
an account (at addresses 21 and 22); every other address holds an offer without goods. -/
def testOffers : Nat → SellerOffer := fun a =>
  if a = 1 then { goods := [{ Type_ := Meat, Refinement := 0 }], account := some 21, price := 1 }
  else if a = 2 then
    { goods := [{ Type_ := Meat, Refinement := 0 }], account := some 22, price := 2 }
  else if a = 3 then { goods := [{ Type_ := Fur, Refinement := 0 }], account := none, price := 1 }
  else if a = 4 then { goods := [{ Type_ := Meat, Refinement := 0 }], account := none, price := 1 }
  else { goods := [], account := none, price := 0 }

/-- Accounts with balance zero at every address. -/
def testAccounts : Nat → SellerAccount := fun _ => NewSellerAccount 0

/-- Market of the test scenarios: good type, ceiling, demand and balance as
given, the market account at address 10. -/
def testMarket (goodType maxPrice demand : Int) (balance : Nat) : State :=
  NewBasicMarket testOffers testAccounts 10 goodType maxPrice demand balance

/-- State of the second scenario after the offer at price 2 was added:
ceiling 1, demand 1, balance 10. -/
def scenarioTwo : State :=
  (AddOffer (testMarket Meat 1 1 10) 2).1

/-- Value of a call that returned, `d` for one that did not. -/
def Outcome.valueD {α : Type} (d : α) : Outcome α → α
  | Outcome.returned a => a
  | Outcome.blocked => d

/-- The calls of the first test scenario: one offer at price 1 is added,
considered and transacted at the price of the counter. -/
def scenarioOneCalls : List Call :=
  [Call.addOffer 1, Call.considerOffers, Call.transactOffer { sellerOffer := 1, price := 1 }]

/-- A run for the tie-break: offers at prices 2, 1 and 1 are added in this
order and three counters are asked for. -/
def tieBreakCalls : List Call :=
  [Call.addOffer 2, Call.addOffer 1, Call.addOffer 4,
    Call.considerOffers, Call.considerOffers, Call.considerOffers]

/-- State of the first scenario after the offer at price 1 was added and
considered: ceiling 2, demand 1, balance 10, current counter at price 1. -/
def scenarioOneCountered : State :=
  (ConsiderOffers (AddOffer (testMarket Meat 2 1 10) 1).1).1

/-- The first scenario with the largest balance a `uint` holds, after the offer
at price 1 was added and considered. -/
def fullBalanceCountered : State :=
  (ConsiderOffers (AddOffer (testMarket Meat 2 1 (moneyMod - 1)) 1).1).1

/-- A new market that demands nothing. -/
def noDemandMarket : State :=
  testMarket Meat 2 0 10

/-- State of the fourth scenario after both offers at price 1 were added and
the first was considered and transacted: the demand of 1 is met, one offer is pending. -/
def scenarioFourBought : State :=
  (runCalls (testMarket Meat 1 1 10)
    [Call.addOffer 1, Call.addOffer 4, Call.considerOffers,
      Call.transactOffer { sellerOffer := 1, price := 1 }]).valueD (testMarket Meat 1 1 10)

/-- What is left of the result of `TransactOffer` for comparison: the error, the
balance and the mutex of the market account, and the balance at address `p`. -/
def transactSummary (p : Nat) (r : Outcome (State × Option MarketError)) :
    Option (Option MarketError × Nat × Bool × Nat) :=
  r.value?.map fun v =>
    (v.2, (v.1.accounts v.1.market.account).balance, (v.1.accounts v.1.market.account).locked,
      (v.1.accounts p).balance)

/-- What is left of the result of `Transfer` for comparison: the error, and the
balance and the mutex of the account at address `p`. -/
def transferSummary (p : Nat) (r : Outcome ((Nat → SellerAccount) × Option MarketError)) :
    Option (Option MarketError × Nat × Bool) :=
  r.value?.map fun v => (v.2, (v.1 p).balance, (v.1 p).locked)

/-- Accounts for `Transfer`: the payer at address 10 holds the largest balance
a `uint` holds and its mutex is free; every other account holds 0. -/
def fullPayerAccounts : Nat → SellerAccount :=
  setAccount testAccounts 10 (NewSellerAccount (moneyMod - 1))

/-- The counter that is outstanding after a run, read off what the calls
returned: the counter of the last successful `ConsiderOffers`, unless a
successful `TransactOffer` came after it; `cur` when the run has neither. -/
def outstanding (cur : Option MarketCounter) (s : State) : List Call → Option MarketCounter
  | [] => cur
  | k :: ks =>
    match perform s k with
    | Outcome.blocked => cur
    | Outcome.returned (s1, r) =>
      match k, r with
      | Call.considerOffers, Except.ok (some c) => outstanding (some c) s1 ks
      | Call.transactOffer _, Except.ok _ => outstanding none s1 ks
      | _, _ => outstanding cur s1 ks

/-- Every pending offer and the offer of the current counter carry exactly one
good, of the kind the market handles. -/
def OffersSingleGood (s : State) : Prop :=
  (∀ o ∈ s.market.sellerOffers, SingleGood s o) ∧
    (∀ cur, s.market.currentOffer = some cur → SingleGood s cur.sellerOffer)

/-- Accounts for `Transfer`: the payer at address 10 holds the largest balance
a `uint` holds and its mutex is held; every other account holds 0. -/
def heldPayerAccounts : Nat → SellerAccount :=
  setAccount testAccounts 10 { balance := moneyMod - 1, locked := true }

/-- Accounts for `Transfer`: the payer at address 10 holds 10, the payee at
address 21 holds 3, both mutexes are free. -/
def payerPayeeAccounts : Nat → SellerAccount :=
  setAccount (setAccount testAccounts 10 (NewSellerAccount 10)) 21 (NewSellerAccount 3)

/-- A run in which an offer of the wrong kind and an offer without goods are
refused, two offers are admitted, one is considered and transacted and the
next is considered. -/
def mixedCalls : List Call :=
  [Call.addOffer 3, Call.addOffer 9, Call.addOffer 2, Call.addOffer 1, Call.considerOffers,
    Call.transactOffer { sellerOffer := 1, price := 1 }, Call.considerOffers]

/-- A market (ceiling 2, demand 3, balance 10) with three offers pending in the
order of their admission: address 2 at price 2, address 1 at price 1, address 4
at price 1. -/
def threePending : State :=
  (AddOffer (AddOffer (AddOffer (testMarket Meat 2 3 10) 2).1 1).1 4).1

/-! ## The stable sort -/

theorem stableInsert_perm (offers : Nat → SellerOffer) (x : Nat) (l : List Nat) :
    (stableInsert offers x l).Perm (x :: l) := by
  induction l with
  | nil => simp [stableInsert]
  | cons y l ih =>
    unfold stableInsert
    split
    · exact (List.Perm.cons y ih).trans (List.Perm.swap x y l)
    · exact List.Perm.refl _

theorem sortStable_perm (offers : Nat → SellerOffer) (l : List Nat) :
    (sortStable offers l).Perm l := by
  induction l with
  | nil => simp [sortStable]
  | cons x l ih =>
    unfold sortStable
    exact (stableInsert_perm offers x _).trans (List.Perm.cons x ih)

theorem sortStable_ne_nil (offers : Nat → SellerOffer) (l : List Nat) (h : l ≠ []) :
    sortStable offers l ≠ [] := by
  intro h0
  have hp := sortStable_perm offers l
  rw [h0] at hp
  exact h (List.Perm.eq_nil hp.symm)

/-! ## ConsiderOffers -/

theorem counterPrice_eq_min (p m b : Nat) :
    (if (if p > m then m else p) > b then b else (if p > m then m else p)) =
      min (min p m) b := by
  split_ifs <;> omega

/-- What a call of `ConsiderOffers` that returns a counter has done. -/
theorem ConsiderOffers_ok (s s1 : State) (c : MarketCounter)
    (h : ConsiderOffers s = (s1, Except.ok c)) :
    s.market.sellerOffers ≠ [] ∧ (s.market.bought.length : Int) < s.market.demand ∧
      ∃ rest, sortStable s.offers s.market.sellerOffers = c.sellerOffer :: rest ∧
        c.price = min (min (s.offers c.sellerOffer).price s.market.maxOffer)
          (s.accounts s.market.account).balance ∧
        s1 = { s with market :=
          { s.market with currentOffer := some c, sellerOffers := rest } } := by
  unfold ConsiderOffers at h
  by_cases h1 : s.market.sellerOffers.length = 0
  · simp [h1] at h
  · have hne : s.market.sellerOffers ≠ [] := fun h0 => h1 (by simp [h0])
    by_cases h2 : (s.market.bought.length : Int) ≥ s.market.demand
    · simp [h1, h2] at h
    · rw [if_neg h1, if_neg h2] at h
      cases hs : sortStable s.offers s.market.sellerOffers with
      | nil => exact absurd hs (sortStable_ne_nil _ _ hne)
      | cons best rest =>
        rw [hs] at h
        simp only [SellerAccount.Balance, counterPrice_eq_min, Prod.mk.injEq,
          Except.ok.injEq] at h
        obtain ⟨hs1, hc⟩ := h
        subst hc
        exact ⟨hne, by omega, rest, rfl, rfl, hs1.symm⟩

/-- The result of `ConsiderOffers` when offers are pending and demand is open. -/
theorem ConsiderOffers_of_pending (s : State) (best : Nat) (rest : List Nat)
    (h1 : s.market.sellerOffers ≠ [])
    (h2 : (s.market.bought.length : Int) < s.market.demand)
    (hs : sortStable s.offers s.market.sellerOffers = best :: rest) :
    ConsiderOffers s =
      ({ s with market := { s.market with
          currentOffer := some
            { sellerOffer := best
              price := min (min (s.offers best).price s.market.maxOffer)
                (s.accounts s.market.account).balance }
          sellerOffers := rest } },
       Except.ok
        { sellerOffer := best
          price := min (min (s.offers best).price s.market.maxOffer)
            (s.accounts s.market.account).balance }) := by
  unfold ConsiderOffers
  have h1n : ¬ s.market.sellerOffers.length = 0 := fun h0 => h1 (List.length_eq_zero.mp h0)
  have h2n : ¬ (s.market.bought.length : Int) ≥ s.market.demand := by omega
  rw [if_neg h1n, if_neg h2n, hs]
  simp only [SellerAccount.Balance, counterPrice_eq_min]

/-- Claim C1: whenever `ConsiderOffers` succeeds, the price of the returned
counter is the minimum of the unit price of the referenced offer, the price
ceiling `maxOffer` and the balance of the market account at the time of the
call; so it is at most each of the three. -/
theorem ConsiderOffers_price_eq_min (s s1 : State) (c : MarketCounter)
    (h : ConsiderOffers s = (s1, Except.ok c)) :
    c.price = min (min (s.offers c.sellerOffer).price s.market.maxOffer)
        (s.accounts s.market.account).Balance ∧
      c.price ≤ (s.offers c.sellerOffer).price ∧
      c.price ≤ s.market.maxOffer ∧
      c.price ≤ (s.accounts s.market.account).Balance := by
  obtain ⟨_, _, rest, _, hp, _⟩ := ConsiderOffers_ok s s1 c h
  simp only [SellerAccount.Balance]
  refine ⟨hp, ?_, ?_, ?_⟩ <;> rw [hp] <;> omega

/-- Witness of C1 on the second test scenario: the offer at price 2 is countered at the ceiling 1. -/
theorem ConsiderOffers_price_eq_min_witness :
    ConsiderOffers scenarioTwo =
        ((ConsiderOffers scenarioTwo).1, Except.ok { sellerOffer := 2, price := 1 }) ∧
      ((1 : Nat) = min (min (scenarioTwo.offers 2).price scenarioTwo.market.maxOffer)
          (scenarioTwo.accounts scenarioTwo.market.account).Balance ∧
        1 ≤ (scenarioTwo.offers 2).price ∧
        1 ≤ scenarioTwo.market.maxOffer ∧
        1 ≤ (scenarioTwo.accounts scenarioTwo.market.account).Balance) :=
  ⟨rfl, ConsiderOffers_price_eq_min scenarioTwo (ConsiderOffers scenarioTwo).1
    { sellerOffer := 2, price := 1 } rfl⟩

/-- Claim C10: `ConsiderOffers` fails with the no-seller-offers error exactly
when no offer is pending; with offers pending it fails with the
demand-satisfied error exactly when `len(bought) >= demand`; with offers
pending and demand open it returns a counter.  On every failure the whole state
is as before the call. -/
theorem ConsiderOffers_failure_cases (s : State) :
    ((ConsiderOffers s).2 = Except.error MarketError.noSellerOffers ↔
        s.market.sellerOffers = []) ∧
      (s.market.sellerOffers ≠ [] →
        ((ConsiderOffers s).2 = Except.error MarketError.marketDemandSatisfied ↔
          (s.market.bought.length : Int) ≥ s.market.demand)) ∧
      (s.market.sellerOffers ≠ [] → ¬ (s.market.bought.length : Int) ≥ s.market.demand →
        ∃ c, (ConsiderOffers s).2 = Except.ok c) ∧
      (∀ e, (ConsiderOffers s).2 = Except.error e → (ConsiderOffers s).1 = s) := by
  by_cases h1 : s.market.sellerOffers = []
  · have hC : ConsiderOffers s = (s, Except.error MarketError.noSellerOffers) := by
      simp [ConsiderOffers, h1]
    simp [hC, h1]
  · by_cases h2 : (s.market.bought.length : Int) ≥ s.market.demand
    · have hC : ConsiderOffers s = (s, Except.error MarketError.marketDemandSatisfied) := by
        have h1n : ¬ s.market.sellerOffers.length = 0 := fun h0 => h1 (List.length_eq_zero.mp h0)
        simp [ConsiderOffers, h1n, h2]
      simp [hC, h1, h2]
    · cases hs : sortStable s.offers s.market.sellerOffers with
      | nil => exact absurd hs (sortStable_ne_nil _ _ h1)
      | cons best rest =>
        have hC := ConsiderOffers_of_pending s best rest h1 (by omega) hs
        simp [hC, h1, h2]

/-! ## AddOffer and TransactOffer, case by case -/

/-- What a successful `AddOffer` has done. -/
theorem AddOffer_ok (s s1 : State) (o : Nat) (h : AddOffer s o = (s1, none)) :
    SingleGood s o ∧
      s1 = { s with market := { s.market with sellerOffers := s.market.sellerOffers ++ [o] } } := by
  unfold AddOffer at h
  split_ifs at h with h1
  · simp at h
  · cases hg : (s.offers o).goods with
    | nil => simp [hg] at h1
    | cons g l =>
      cases l with
      | cons g2 l2 => simp [hg] at h1
      | nil =>
        rw [hg] at h
        simp only [List.head?_cons] at h
        split_ifs at h with h2
        · simp at h
        · simp only [Prod.mk.injEq, and_true] at h
          exact ⟨⟨g, hg, by simpa using h2⟩, h.symm⟩

/-- A failing `AddOffer` leaves the state as it was. -/
theorem AddOffer_error (s s1 : State) (o : Nat) (e : MarketError)
    (h : AddOffer s o = (s1, some e)) : s1 = s := by
  unfold AddOffer at h
  split_ifs at h with h1
  · simp only [Prod.mk.injEq] at h
    exact h.1.symm
  · split at h
    · split_ifs at h
      · simp only [Prod.mk.injEq] at h
        exact h.1.symm
      · simp at h
    · simp only [Prod.mk.injEq] at h
      exact h.1.symm

/-- A failing `ConsiderOffers` leaves the state as it was. -/
theorem ConsiderOffers_error (s s1 : State) (e : MarketError)
    (h : ConsiderOffers s = (s1, Except.error e)) : s1 = s := by
  by_cases h1 : s.market.sellerOffers = []
  · have hC : ConsiderOffers s = (s, Except.error MarketError.noSellerOffers) := by
      simp [ConsiderOffers, h1]
    rw [hC] at h
    simp only [Prod.mk.injEq] at h
    exact h.1.symm
  · by_cases h2 : (s.market.bought.length : Int) ≥ s.market.demand
    · have hC : ConsiderOffers s = (s, Except.error MarketError.marketDemandSatisfied) := by
        have h1n : ¬ s.market.sellerOffers.length = 0 := fun h0 => h1 (List.length_eq_zero.mp h0)
        simp [ConsiderOffers, h1n, h2]
      rw [hC] at h
      simp only [Prod.mk.injEq] at h
      exact h.1.symm
    · cases hs : sortStable s.offers s.market.sellerOffers with
      | nil => exact absurd hs (sortStable_ne_nil _ _ h1)
      | cons best rest =>
        rw [ConsiderOffers_of_pending s best rest h1 (by omega) hs] at h
        simp at h

/-- What a successful `TransactOffer` has done to the market object. -/
theorem TransactOffer_ok (s s1 : State) (c : MarketCounter)
    (h : TransactOffer s c = Outcome.returned (s1, none)) :
    (∃ cur, s.market.currentOffer = some cur ∧ cur.sellerOffer = c.sellerOffer) ∧
      (s.market.bought.length : Int) < s.market.demand ∧
      s1.offers = s.offers ∧
      s1.market = { s.market with
        bought := s.market.bought ++ (s.offers c.sellerOffer).goods
        currentOffer := none } := by
  unfold TransactOffer at h
  split at h
  · simp at h
  · rename_i cur hcur
    split_ifs at h with h1 h2
    · simp at h
    · simp at h
    · split at h
      · simp at h
      · simp at h
      · simp only [Outcome.returned.injEq, Prod.mk.injEq, and_true] at h
        subst h
        exact ⟨⟨cur, hcur, by simpa using h1⟩, by omega, rfl, rfl⟩

/-- A failing `TransactOffer` leaves the offers and the market object as they were. -/
theorem TransactOffer_error (s s1 : State) (c : MarketCounter) (e : MarketError)
    (h : TransactOffer s c = Outcome.returned (s1, some e)) :
    s1.offers = s.offers ∧ s1.market = s.market := by
  unfold TransactOffer at h
  split at h
  · simp only [Outcome.returned.injEq, Prod.mk.injEq] at h
    rw [← h.1]
    exact ⟨rfl, rfl⟩
  · split_ifs at h with h1 h2
    · simp only [Outcome.returned.injEq, Prod.mk.injEq] at h
      rw [← h.1]
      exact ⟨rfl, rfl⟩
    · simp only [Outcome.returned.injEq, Prod.mk.injEq] at h
      rw [← h.1]
      exact ⟨rfl, rfl⟩
    · split at h
      · simp at h
      · simp only [Outcome.returned.injEq, Prod.mk.injEq] at h
        rw [← h.1]
        exact ⟨rfl, rfl⟩
      · simp at h

/-! ## The invariant -/

theorem Invariant_NewBasicMarket (offers : Nat → SellerOffer) (accounts : Nat → SellerAccount)
    (acct : Nat) (goodType maxOffer demand : Int) (balance : Nat) (hd : 0 ≤ demand) :
    Invariant (NewBasicMarket offers accounts acct goodType maxOffer demand balance) := by
  refine ⟨?_, ?_, ?_⟩
  · simpa [NewBasicMarket] using hd
  · intro o ho
    simp [NewBasicMarket] at ho
  · intro cur hcur
    simp [NewBasicMarket] at hcur

/-- Every call that returns keeps the invariant, the offers, the demand and the good type. -/
theorem perform_invariant (s s1 : State) (k : Call)
    (r : Except MarketError (Option MarketCounter)) (hinv : Invariant s)
    (h : perform s k = Outcome.returned (s1, r)) :
    Invariant s1 ∧ s1.offers = s.offers ∧ s1.market.demand = s.market.demand ∧
      s1.market.goodType = s.market.goodType := by
  obtain ⟨hb, hp, hc⟩ := hinv
  cases k with
  | addOffer o =>
    simp only [perform] at h
    cases hA : AddOffer s o with
    | mk s2 e =>
      rw [hA] at h
      cases e with
      | some err =>
        simp only [Outcome.returned.injEq, Prod.mk.injEq] at h
        have := AddOffer_error s s2 o err hA
        rw [← h.1, this]
        exact ⟨⟨hb, hp, hc⟩, rfl, rfl, rfl⟩
      | none =>
        simp only [Outcome.returned.injEq, Prod.mk.injEq] at h
        obtain ⟨hsg, hs2⟩ := AddOffer_ok s s2 o hA
        rw [← h.1, hs2]
        refine ⟨⟨hb, ?_, hc⟩, rfl, rfl, rfl⟩
        intro o1 ho1
        simp only [List.mem_append, List.mem_singleton] at ho1
        rcases ho1 with ho1 | ho1
        · exact hp o1 ho1
        · rw [ho1]
          exact hsg
  | considerOffers =>
    simp only [perform] at h
    cases hC : ConsiderOffers s with
    | mk s2 e =>
      rw [hC] at h
      cases e with
      | error err =>
        simp only [Outcome.returned.injEq, Prod.mk.injEq] at h
        have := ConsiderOffers_error s s2 err hC
        rw [← h.1, this]
        exact ⟨⟨hb, hp, hc⟩, rfl, rfl, rfl⟩
      | ok c =>
        simp only [Outcome.returned.injEq, Prod.mk.injEq] at h
        obtain ⟨_, _, rest, hsort, _, hs2⟩ := ConsiderOffers_ok s s2 c hC
        have hperm := sortStable_perm s.offers s.market.sellerOffers
        rw [hsort] at hperm
        rw [← h.1, hs2]
        refine ⟨⟨hb, ?_, ?_⟩, rfl, rfl, rfl⟩
        · intro o1 ho1
          exact hp o1 (hperm.subset (List.mem_cons_of_mem _ ho1))
        · intro cur hcur
          simp only [Option.some.injEq] at hcur
          rw [← hcur]
          exact hp _ (hperm.subset (List.mem_cons_self _ _))
  | transactOffer c =>
    simp only [perform] at h
    cases hT : TransactOffer s c with
    | blocked => simp [hT] at h
    | returned v =>
      obtain ⟨s2, e⟩ := v
      rw [hT] at h
      cases e with
      | some err =>
        simp only [Outcome.returned.injEq, Prod.mk.injEq] at h
        obtain ⟨ho, hm⟩ := TransactOffer_error s s2 c err hT
        rw [← h.1]
        refine ⟨⟨?_, ?_, ?_⟩, ho, by rw [hm], by rw [hm]⟩
        · rw [hm]; exact hb
        · intro o1 ho1
          rw [hm] at ho1
          simpa [SingleGood, ho, hm] using hp o1 ho1
        · intro cur hcur
          rw [hm] at hcur
          simpa [SingleGood, ho, hm] using hc cur hcur
      | none =>
        simp only [Outcome.returned.injEq, Prod.mk.injEq] at h
        obtain ⟨⟨cur, hcur, hsame⟩, hlt, ho, hm⟩ := TransactOffer_ok s s2 c hT
        obtain ⟨g, hg, _⟩ := hc cur hcur
        rw [← h.1]
        refine ⟨⟨?_, ?_, ?_⟩, ho, by rw [hm], by rw [hm]⟩
        · rw [hm, ← hsame, hg]
          simp only [List.length_append, List.length_singleton, Nat.cast_add, Nat.cast_one]
          omega
        · intro o1 ho1
          rw [hm] at ho1
          simpa [SingleGood, ho, hm] using hp o1 ho1
        · intro cur1 hcur1
          rw [hm] at hcur1
          simp at hcur1

/-- Every run that returns from a state with the invariant ends in one, with
the same offers, demand and good type. -/
theorem runCalls_invariant (calls : List Call) (s s1 : State) (hinv : Invariant s)
    (h : runCalls s calls = Outcome.returned s1) :
    Invariant s1 ∧ s1.offers = s.offers ∧ s1.market.demand = s.market.demand ∧
      s1.market.goodType = s.market.goodType := by
  induction calls generalizing s with
  | nil =>
    simp only [runCalls, Outcome.returned.injEq] at h
    rw [← h]
    exact ⟨hinv, rfl, rfl, rfl⟩
  | cons k ks ih =>
    unfold runCalls at h
    cases hp : perform s k with
    | blocked => simp [hp] at h
    | returned v =>
      obtain ⟨s2, r⟩ := v
      rw [hp] at h
      obtain ⟨hi2, ho2, hd2, hg2⟩ := perform_invariant s s2 k r hinv hp
      obtain ⟨hi1, ho1, hd1, hg1⟩ := ih s2 hi2 h
      exact ⟨hi1, ho1.trans ho2, hd1.trans hd2, hg1.trans hg2⟩

/-- Claim C3: for a market made by `NewBasicMarket` with `demand >= 0`, after
every finite sequence of `AddOffer`, `ConsiderOffers` and `TransactOffer` calls
with arbitrary arguments the number of bought goods is at most the initial
demand. -/
theorem bought_le_demand (offers : Nat → SellerOffer) (accounts : Nat → SellerAccount)
    (acct : Nat) (goodType maxOffer demand : Int) (balance : Nat) (calls : List Call)
    (s : State) (hd : 0 ≤ demand)
    (h : runCalls (NewBasicMarket offers accounts acct goodType maxOffer demand balance) calls =
      Outcome.returned s) :
    (s.market.bought.length : Int) ≤ demand := by
  obtain ⟨hi, _, hdem, _⟩ := runCalls_invariant calls _ s
    (Invariant_NewBasicMarket offers accounts acct goodType maxOffer demand balance hd) h
  have := hi.1
  rw [hdem] at this
  exact this

/-- Witness of C3 on the first test scenario: after the offer is added,
considered and transacted, one good is bought and the demand is 1. -/
theorem bought_le_demand_witness :
    ((0 : Int) ≤ 1 ∧
      runCalls (NewBasicMarket testOffers testAccounts 10 Meat 2 1 10) scenarioOneCalls =
        Outcome.returned ((runCalls (testMarket Meat 2 1 10) scenarioOneCalls).valueD
          (testMarket Meat 2 1 10))) ∧
      (((runCalls (testMarket Meat 2 1 10) scenarioOneCalls).valueD
          (testMarket Meat 2 1 10)).market.bought.length : Int) ≤ 1 :=
  ⟨⟨by decide, rfl⟩,
    bought_le_demand testOffers testAccounts 10 Meat 2 1 10 scenarioOneCalls _ (by decide) rfl⟩

/-! ## Stability: offers of one price are considered in the order of their admission -/

theorem stableInsert_filter_price (offers : Nat → SellerOffer) (p x : Nat) (l : List Nat) :
    (stableInsert offers x l).filter (fun o => decide ((offers o).price = p)) =
      (x :: l).filter (fun o => decide ((offers o).price = p)) := by
  induction l with
  | nil => simp [stableInsert]
  | cons y l ih =>
    unfold stableInsert
    by_cases hlt : (offers y).price < (offers x).price
    · simp only [ByOfferPrice.Less, hlt, decide_True, if_true]
      by_cases hx : (offers x).price = p
      · have hy : ¬ (offers y).price = p := by omega
        simp only [List.filter_cons, hy, hx, decide_True, decide_False, if_true] at ih ⊢
        simpa using ih
      · by_cases hy : (offers y).price = p
        · simp only [List.filter_cons, hy, hx, decide_True, decide_False, if_true] at ih ⊢
          simpa using ih
        · simp only [List.filter_cons, hy, hx, decide_False] at ih ⊢
          simpa using ih
    · simp [ByOfferPrice.Less, hlt]

theorem sortStable_filter_price (offers : Nat → SellerOffer) (p : Nat) (l : List Nat) :
    (sortStable offers l).filter (fun o => decide ((offers o).price = p)) =
      l.filter (fun o => decide ((offers o).price = p)) := by
  induction l with
  | nil => simp [sortStable]
  | cons x l ih =>
    unfold sortStable
    rw [stableInsert_filter_price, List.filter_cons, List.filter_cons, ih]

/-- The offers of price `p` that a run considers are an initial part of the
offers of price `p` pending at its start followed by those it admits. -/
theorem considered_initial (p : Nat) (calls : List Call) (s : State) :
    (considered s calls).filter (fun o => decide ((s.offers o).price = p)) <+:
      s.market.sellerOffers.filter (fun o => decide ((s.offers o).price = p)) ++
        (admitted s calls).filter (fun o => decide ((s.offers o).price = p)) := by
  induction calls generalizing s with
  | nil => simp [considered, admitted]
  | cons k ks ih =>
    cases k with
    | addOffer o =>
      cases hA : AddOffer s o with
      | mk s2 e =>
        cases e with
        | some err =>
          have h2 := AddOffer_error s s2 o err hA
          subst h2
          simpa [considered, admitted, perform, hA] using ih s2
        | none =>
          obtain ⟨_, hs2⟩ := AddOffer_ok s s2 o hA
          have h := ih s2
          have ho : s2.offers = s.offers := by rw [hs2]
          have hr : s2.market.sellerOffers = s.market.sellerOffers ++ [o] := by rw [hs2]
          rw [ho, hr] at h
          simp only [considered, admitted, perform, hA]
          by_cases hp : (s.offers o).price = p
          · simpa [List.filter_append, List.filter_cons, List.append_assoc, hp] using h
          · simpa [List.filter_append, List.filter_cons, List.append_assoc, hp] using h
    | considerOffers =>
      cases hC : ConsiderOffers s with
      | mk s2 e =>
        cases e with
        | error err =>
          have h2 := ConsiderOffers_error s s2 err hC
          subst h2
          simpa [considered, admitted, perform, hC] using ih s2
        | ok c =>
          obtain ⟨_, _, rest, hsort, _, hs2⟩ := ConsiderOffers_ok s s2 c hC
          have h := ih s2
          have hf := sortStable_filter_price s.offers p s.market.sellerOffers
          rw [hsort] at hf
          have ho : s2.offers = s.offers := by rw [hs2]
          have hr : s2.market.sellerOffers = rest := by rw [hs2]
          rw [ho, hr] at h
          simp only [considered, admitted, perform, hC]
          rw [← hf]
          by_cases hp : (s.offers c.sellerOffer).price = p
          · simp only [List.filter_cons, hp, decide_True, if_true, List.cons_append]
            exact (List.prefix_cons_inj _).mpr h
          · simpa [List.filter_cons, hp] using h
    | transactOffer c =>
      cases hT : TransactOffer s c with
      | blocked => simp [considered, admitted, perform, hT]
      | returned v =>
        obtain ⟨s2, e⟩ := v
        have h := ih s2
        cases e with
        | some err =>
          obtain ⟨ho, hm⟩ := TransactOffer_error s s2 c err hT
          rw [ho, hm] at h
          simpa [considered, admitted, perform, hT] using h
        | none =>
          obtain ⟨_, _, ho, hm⟩ := TransactOffer_ok s s2 c hT
          rw [ho, hm] at h
          simpa [considered, admitted, perform, hT] using h

/-- Claim C5 (stable tie-break): in every run of calls on a new market, if
offers `A` and `B` have the same unit price, `A` was admitted by `AddOffer`
before `B` was (the admitted offers are `l1`, then `B`, then `l2`, with `A` in
`l1` and `B` not), and `B` is returned by a `ConsiderOffers` call (the
considered offers are `m1`, then `B`, then `m2`), then `A` is returned by an
earlier `ConsiderOffers` call: `A` is in `m1`. -/
theorem stable_tie_break (offers : Nat → SellerOffer) (accounts : Nat → SellerAccount)
    (acct : Nat) (goodType maxOffer demand : Int) (balance : Nat) (calls : List Call)
    (A B : Nat) (l1 l2 m1 m2 : List Nat)
    (hprice : (offers A).price = (offers B).price)
    (hadm : admitted (NewBasicMarket offers accounts acct goodType maxOffer demand balance)
      calls = l1 ++ B :: l2)
    (hA : A ∈ l1) (hB : B ∉ l1)
    (hcons : considered (NewBasicMarket offers accounts acct goodType maxOffer demand balance)
      calls = m1 ++ B :: m2) :
    A ∈ m1 := by
  have h := considered_initial (offers B).price calls
    (NewBasicMarket offers accounts acct goodType maxOffer demand balance)
  rw [hadm, hcons] at h
  simp only [NewBasicMarket, List.filter_nil, List.nil_append, List.filter_append,
    List.filter_cons, decide_True, if_true] at h
  obtain ⟨t, ht⟩ := h
  rw [List.append_assoc] at ht
  have hAf : A ∈ l1.filter (fun o => decide ((offers o).price = (offers B).price)) := by
    simp [List.mem_filter, hA, hprice]
  rcases List.append_eq_append_iff.mp ht with ⟨a, h1, h2⟩ | ⟨c, h1, h2⟩
  · cases a with
    | nil =>
      simp only [List.append_nil] at h1
      rw [h1] at hAf
      exact (List.mem_filter.mp hAf).1
    | cons x a =>
      simp only [List.cons_append, List.cons.injEq] at h2
      have hx : B ∈ l1.filter (fun o => decide ((offers o).price = (offers B).price)) := by
        rw [h1, h2.1]
        simp
      exact absurd (List.mem_filter.mp hx).1 hB
  · have hm : A ∈ m1.filter (fun o => decide ((offers o).price = (offers B).price)) := by
      rw [h1]
      exact List.mem_append_left _ hAf
    exact (List.mem_filter.mp hm).1

/-- Witness of C5: offers 2, 1 and 4 (prices 2, 1, 1) are admitted in this
order and considered as 1, 4, 2; offer 1 is returned before offer 4. -/
theorem stable_tie_break_witness :
    ((testOffers 1).price = (testOffers 4).price ∧
      admitted (NewBasicMarket testOffers testAccounts 10 Meat 2 3 10) tieBreakCalls =
        [2, 1] ++ 4 :: [] ∧
      (1 : Nat) ∈ [2, 1] ∧ (4 : Nat) ∉ [2, 1] ∧
      considered (NewBasicMarket testOffers testAccounts 10 Meat 2 3 10) tieBreakCalls =
        [1] ++ 4 :: [2]) ∧
      (1 : Nat) ∈ [1] :=
  ⟨⟨rfl, rfl, by decide, by decide, rfl⟩,
    stable_tie_break testOffers testAccounts 10 Meat 2 3 10 tieBreakCalls 1 4 [2, 1] [] [1] [2]
      rfl rfl (by decide) (by decide) rfl⟩

/-! ## Transfer and TransactOffer on the test scenarios -/

/-- Claim C2 on the code: in the first test scenario `TransactOffer` succeeds,
and afterwards the market account still holds 10 and the account of the seller
(address 21) still holds 0: no money has moved. -/
theorem TransactOffer_moves_no_money :
    (scenarioOneCountered.market.currentOffer = some { sellerOffer := 1, price := 1 } ∧
      (scenarioOneCountered.accounts scenarioOneCountered.market.account).balance = 10 ∧
      (scenarioOneCountered.offers 1).account = some 21 ∧
      (scenarioOneCountered.accounts 21).balance = 0) ∧
      transactSummary 21 (TransactOffer scenarioOneCountered { sellerOffer := 1, price := 1 }) =
        some (none, 10, false, 0) := by
  decide

/-- Claim C7 on the code: with the largest balance in the market account, the
`Transfer` step of `TransactOffer` fails; `TransactOffer` returns the error of
`Withdraw`, and the balance of the market account has changed from
`2 ^ 64 - 1` to 0 (its mutex is left held). -/
theorem TransactOffer_error_changes_balance :
    (fullBalanceCountered.accounts fullBalanceCountered.market.account).balance = moneyMod - 1 ∧
      (fullBalanceCountered.accounts fullBalanceCountered.market.account).locked = false ∧
      transactSummary 21 (TransactOffer fullBalanceCountered { sellerOffer := 1, price := 1 }) =
        some (some MarketError.notEnoughMoney, 0, true, 0) := by
  decide

/-- Claim C8 on the code: with the largest balance in the market account,
`ConsiderOffers` succeeds and returns the counter at price 1 for the offer at
address 1, and `TransactOffer` of this very counter, called next, returns an error. -/
theorem TransactOffer_after_ConsiderOffers_fails :
    (ConsiderOffers (AddOffer (testMarket Meat 2 1 (moneyMod - 1)) 1).1).2 =
        Except.ok { sellerOffer := 1, price := 1 } ∧
      ((TransactOffer (ConsiderOffers (AddOffer (testMarket Meat 2 1 (moneyMod - 1)) 1).1).1
          { sellerOffer := 1, price := 1 }).value?.map Prod.snd) =
        some (some MarketError.notEnoughMoney) := by
  decide

/-- Claim C9 on the code: `Transfer` of 1 from a payer that holds `2 ^ 64 - 1`
and whose mutex is free returns the error of `Withdraw`, and the mutex of the
payer is held when it returns. -/
theorem Transfer_error_keeps_lock :
    (fullPayerAccounts 10).locked = false ∧
      transferSummary 10 (Transfer 1 10 (some 21) fullPayerAccounts) =
        some (some MarketError.notEnoughMoney, 0, true) := by
  decide

/-! ## TransactOffer: the tests before the transfer -/

/-- Without a current counter `TransactOffer` fails and changes nothing. -/
theorem TransactOffer_of_no_counter (s : State) (c : MarketCounter)
    (h : s.market.currentOffer = none) :
    TransactOffer s c = Outcome.returned (s, some MarketError.noOffersAvailable) := by
  unfold TransactOffer
  rw [h]

/-- For a counter of another offer than the current one `TransactOffer` fails
and changes nothing. -/
theorem TransactOffer_of_other_offer (s : State) (c cur : MarketCounter)
    (h : s.market.currentOffer = some cur) (hne : cur.sellerOffer ≠ c.sellerOffer) :
    TransactOffer s c = Outcome.returned (s, some MarketError.offerNoLongerCurrent) := by
  unfold TransactOffer
  rw [h]
  simp [hne]

/-- For a counter of the current offer, with the demand met, `TransactOffer`
fails and changes nothing. -/
theorem TransactOffer_of_demand_met (s : State) (c cur : MarketCounter)
    (h : s.market.currentOffer = some cur) (heq : cur.sellerOffer = c.sellerOffer)
    (hd : (s.market.bought.length : Int) ≥ s.market.demand) :
    TransactOffer s c = Outcome.returned (s, some MarketError.marketDemandSatisfied) := by
  unfold TransactOffer
  rw [h]
  simp [heq, hd]

/-- Counterexample to C4 as stated: in a new market that demands nothing,
`len(bought)` equals the demand, yet `ConsiderOffers` fails with the
no-seller-offers error and `TransactOffer` with the no-offers-available error,
not with the demand-satisfied error. -/
theorem demand_met_other_errors :
    (noDemandMarket.market.bought.length : Int) = noDemandMarket.market.demand ∧
      (ConsiderOffers noDemandMarket).2 = Except.error MarketError.noSellerOffers ∧
      (ConsiderOffers noDemandMarket).2 ≠ Except.error MarketError.marketDemandSatisfied ∧
      (TransactOffer noDemandMarket { sellerOffer := 1, price := 1 }).value?.map Prod.snd =
        some (some MarketError.noOffersAvailable) ∧
      (TransactOffer noDemandMarket { sellerOffer := 1, price := 1 }).value?.map Prod.snd ≠
        some (some MarketError.marketDemandSatisfied) := by
  decide

/-- Claim C4 as amended: in every state in which `len(bought)` equals the
demand, `ConsiderOffers` fails and `TransactOffer(c)` fails for every counter
`c`, both leaving the state unchanged.  The error of `ConsiderOffers` is
demand-satisfied when an offer is pending and no-seller-offers otherwise; the
error of `TransactOffer` is demand-satisfied when there is a current counter
and it references the offer of `c`, stale-offer when it references another
offer, and no-offers-available when there is no current counter. -/
theorem demand_met_errors (s : State) (c : MarketCounter)
    (h : (s.market.bought.length : Int) = s.market.demand) :
    (s.market.sellerOffers ≠ [] →
        ConsiderOffers s = (s, Except.error MarketError.marketDemandSatisfied)) ∧
      (s.market.sellerOffers = [] →
        ConsiderOffers s = (s, Except.error MarketError.noSellerOffers)) ∧
      (∀ cur, s.market.currentOffer = some cur → cur.sellerOffer = c.sellerOffer →
        TransactOffer s c = Outcome.returned (s, some MarketError.marketDemandSatisfied)) ∧
      (∀ cur, s.market.currentOffer = some cur → cur.sellerOffer ≠ c.sellerOffer →
        TransactOffer s c = Outcome.returned (s, some MarketError.offerNoLongerCurrent)) ∧
      (s.market.currentOffer = none →
        TransactOffer s c = Outcome.returned (s, some MarketError.noOffersAvailable)) := by
  refine ⟨?_, ?_, ?_, ?_, ?_⟩
  · intro hne
    have h1n : ¬ s.market.sellerOffers.length = 0 := fun h0 => hne (List.length_eq_zero.mp h0)
    simp [ConsiderOffers, h1n, h]
  · intro he
    simp [ConsiderOffers, he]
  · intro cur hcur heq
    exact TransactOffer_of_demand_met s c cur hcur heq (by omega)
  · intro cur hcur hne
    exact TransactOffer_of_other_offer s c cur hcur hne
  · intro hnone
    exact TransactOffer_of_no_counter s c hnone

/-- Witness of C4 as amended, on the fourth test scenario: one good is bought,
the demand is 1, an offer is pending, and `ConsiderOffers` fails with the
demand-satisfied error. -/
theorem demand_met_errors_witness :
    (scenarioFourBought.market.bought.length : Int) = scenarioFourBought.market.demand ∧
      ConsiderOffers scenarioFourBought =
        (scenarioFourBought, Except.error MarketError.marketDemandSatisfied) :=
  ⟨by decide,
    (demand_met_errors scenarioFourBought { sellerOffer := 4, price := 1 } (by decide)).1
      (by decide)⟩

/-- The field `currentOffer` after a run that returns is the outstanding counter of the run. -/
theorem currentOffer_eq_outstanding (calls : List Call) (s s1 : State)
    (h : runCalls s calls = Outcome.returned s1) :
    s1.market.currentOffer = outstanding s.market.currentOffer s calls := by
  induction calls generalizing s with
  | nil =>
    simp only [runCalls, Outcome.returned.injEq] at h
    rw [← h]
    rfl
  | cons k ks ih =>
    cases k with
    | addOffer o =>
      cases hA : AddOffer s o with
      | mk s2 e =>
        simp only [runCalls, perform, hA] at h
        cases e with
        | some err =>
          have h2 := AddOffer_error s s2 o err hA
          simp only [outstanding, perform, hA]
          rw [ih s2 h, h2]
        | none =>
          obtain ⟨_, hs2⟩ := AddOffer_ok s s2 o hA
          simp only [outstanding, perform, hA]
          rw [ih s2 h, hs2]
    | considerOffers =>
      cases hC : ConsiderOffers s with
      | mk s2 e =>
        simp only [runCalls, perform, hC] at h
        cases e with
        | error err =>
          have h2 := ConsiderOffers_error s s2 err hC
          simp only [outstanding, perform, hC]
          rw [ih s2 h, h2]
        | ok c =>
          obtain ⟨_, _, rest, _, _, hs2⟩ := ConsiderOffers_ok s s2 c hC
          simp only [outstanding, perform, hC]
          rw [ih s2 h, hs2]
    | transactOffer c =>
      cases hT : TransactOffer s c with
      | blocked => simp [runCalls, perform, hT] at h
      | returned v =>
        obtain ⟨s2, e⟩ := v
        simp only [runCalls, perform, hT] at h
        cases e with
        | some err =>
          obtain ⟨_, hm⟩ := TransactOffer_error s s2 c err hT
          simp only [outstanding, perform, hT]
          rw [ih s2 h, hm]
        | none =>
          obtain ⟨_, _, _, hm⟩ := TransactOffer_ok s s2 c hT
          simp only [outstanding, perform, hT]
          rw [ih s2 h, hm]

/-- Counterexample to C6 as stated: `ConsiderOffers` has just returned the
counter at price 1 for the offer at address 1; a counter for the same offer at
price 5 is another counter, and `TransactOffer` of it succeeds. -/
theorem TransactOffer_accepts_other_price :
    (ConsiderOffers (AddOffer (testMarket Meat 2 1 10) 1).1).2 =
        Except.ok { sellerOffer := 1, price := 1 } ∧
      scenarioOneCountered.market.currentOffer = some { sellerOffer := 1, price := 1 } ∧
      ({ sellerOffer := 1, price := 5 } : MarketCounter) ≠ { sellerOffer := 1, price := 1 } ∧
      (TransactOffer scenarioOneCountered { sellerOffer := 1, price := 5 }).value?.map Prod.snd =
        some none := by
  decide

/-- Claim C6 as amended: in every state, when no counter is outstanding (none
was issued yet, or the last one was transacted) or the counter `c` references
another offer than the outstanding counter, `TransactOffer(c)` fails, with the
no-offers-available error in the first case and the stale-offer error in the
second, and leaves the state unchanged. -/
theorem TransactOffer_rejects_stale (s : State) (c : MarketCounter)
    (h : s.market.currentOffer = none ∨
      ∃ cur, s.market.currentOffer = some cur ∧ cur.sellerOffer ≠ c.sellerOffer) :
    (s.market.currentOffer = none →
        TransactOffer s c = Outcome.returned (s, some MarketError.noOffersAvailable)) ∧
      (s.market.currentOffer ≠ none →
        TransactOffer s c = Outcome.returned (s, some MarketError.offerNoLongerCurrent)) ∧
      ∃ e, TransactOffer s c = Outcome.returned (s, some e) := by
  rcases h with h | ⟨cur, hcur, hne⟩
  · exact ⟨fun _ => TransactOffer_of_no_counter s c h, fun hn => absurd h hn,
      _, TransactOffer_of_no_counter s c h⟩
  · refine ⟨fun hn => ?_, fun _ => TransactOffer_of_other_offer s c cur hcur hne,
      _, TransactOffer_of_other_offer s c cur hcur hne⟩
    rw [hcur] at hn
    exact absurd hn (by simp)

/-- Witness of C6 as amended: with the counter for the offer at address 1
outstanding, a counter for the offer at address 2 is rejected. -/
theorem TransactOffer_rejects_stale_witness :
    (scenarioOneCountered.market.currentOffer = none ∨
        ∃ cur, scenarioOneCountered.market.currentOffer = some cur ∧
          cur.sellerOffer ≠ (2 : Nat)) ∧
      ∃ e, TransactOffer scenarioOneCountered { sellerOffer := 2, price := 1 } =
        Outcome.returned (scenarioOneCountered, some e) :=
  ⟨Or.inr ⟨{ sellerOffer := 1, price := 1 }, by decide, by decide⟩,
    (TransactOffer_rejects_stale scenarioOneCountered { sellerOffer := 2, price := 1 }
      (Or.inr ⟨{ sellerOffer := 1, price := 1 }, by decide, by decide⟩)).2.2⟩

/-! ## The account -/

/-- Claim C12: for every balance `b` and amount `m`, `Withdraw(m)` returns an
error exactly when `m > b`; on error the account is as before, on success the
balance is `b - m` with `m` at most `b`, so that the new balance plus `m` is
the old one: the balance does not wrap around. -/
theorem Withdraw_error_iff (a : SellerAccount) (m : Nat) :
    ((a.Withdraw m).2 ≠ none ↔ m > a.balance) ∧
      ((a.Withdraw m).2 = some MarketError.notEnoughMoney ↔ m > a.balance) ∧
      (m > a.balance → (a.Withdraw m).1 = a) ∧
      (¬ m > a.balance →
        (a.Withdraw m).2 = none ∧ (a.Withdraw m).1.Balance = a.balance - m ∧
          (a.Withdraw m).1.Balance + m = a.balance ∧ (a.Withdraw m).1.locked = a.locked) := by
  by_cases h : m ≤ a.balance
  · have hw : a.Withdraw m = ({ a with balance := a.balance - m }, none) := by
      simp [SellerAccount.Withdraw, h]
    rw [hw]
    refine ⟨?_, ?_, ?_, ?_⟩
    · exact ⟨fun h1 => absurd rfl h1, fun h1 => by omega⟩
    · exact ⟨fun h1 => by simp at h1, fun h1 => by omega⟩
    · intro hgt; omega
    · intro _
      refine ⟨rfl, rfl, ?_, rfl⟩
      show a.balance - m + m = a.balance
      omega
  · have hw : a.Withdraw m = (a, some MarketError.notEnoughMoney) := by
      simp [SellerAccount.Withdraw, h]
    rw [hw]
    refine ⟨?_, ?_, ?_, ?_⟩
    · exact ⟨fun _ => by omega, fun _ => by simp⟩
    · exact ⟨fun _ => by omega, fun _ => rfl⟩
    · intro _; rfl
    · intro hle; omega

/-- Counterexample to C15 as stated: a deposit of 1 into an account that holds
`2 ^ 64 - 1` leaves the balance 0, not `2 ^ 64`. -/
theorem Deposit_wraps :
    ((NewSellerAccount (moneyMod - 1)).Deposit 1).Balance = 0 ∧
      ((NewSellerAccount (moneyMod - 1)).Deposit 1).Balance ≠
        (NewSellerAccount (moneyMod - 1)).Balance + 1 := by
  decide

/-- Claim C15 as amended: for every balance `b` and amount `m`, `Deposit(m)`
has no error to return and afterwards `Balance()` returns `b + m` reduced
modulo `2 ^ 64`; this is exactly `b + m` whenever `b + m < 2 ^ 64`.  The mutex
is not touched. -/
theorem Deposit_balance (a : SellerAccount) (m : Nat) :
    (a.Deposit m).Balance = (a.balance + m) % 2 ^ 64 ∧
      (a.balance + m < 2 ^ 64 → (a.Deposit m).Balance = a.balance + m) ∧
      (a.Deposit m).locked = a.locked := by
  refine ⟨rfl, ?_, rfl⟩
  intro h
  exact Nat.mod_eq_of_lt h

/-! ## The constructor -/

/-- Counterexample to C16 as stated: `NewBasicMarket` with the ceiling
argument -1 makes a market whose ceiling is `2 ^ 64 - 1`. -/
theorem NewBasicMarket_negative_ceiling :
    (NewBasicMarket testOffers testAccounts 10 Meat (-1) 1 10).market.maxOffer = 2 ^ 64 - 1 ∧
      (((NewBasicMarket testOffers testAccounts 10 Meat (-1) 1 10).market.maxOffer : Nat) : Int) ≠
        -1 := by
  decide

/-- Claim C16 as amended: for all arguments, `NewBasicMarket(goodType,
maxOffer, demand, balance)` returns a market whose good kind, demand and
account balance are the arguments, whose ceiling is `maxOffer` reduced modulo
`2 ^ 64` (the argument itself whenever `0 <= maxOffer < 2 ^ 64`), with no
bought goods, no pending offers, no current counter, and a free mutex. -/
theorem NewBasicMarket_fields (offers : Nat → SellerOffer) (accounts : Nat → SellerAccount)
    (acct : Nat) (goodType maxOffer demand : Int) (balance : Nat) :
    (NewBasicMarket offers accounts acct goodType maxOffer demand balance).market.goodType =
        goodType ∧
      (((NewBasicMarket offers accounts acct goodType maxOffer demand balance).market.maxOffer :
        Nat) : Int) = maxOffer % 2 ^ 64 ∧
      (0 ≤ maxOffer → maxOffer < 2 ^ 64 →
        (((NewBasicMarket offers accounts acct goodType maxOffer demand balance).market.maxOffer :
          Nat) : Int) = maxOffer) ∧
      (NewBasicMarket offers accounts acct goodType maxOffer demand balance).market.demand =
        demand ∧
      ((NewBasicMarket offers accounts acct goodType maxOffer demand balance).accounts
        (NewBasicMarket offers accounts acct goodType maxOffer demand balance).market.account).Balance
        = balance ∧
      ((NewBasicMarket offers accounts acct goodType maxOffer demand balance).accounts
        (NewBasicMarket offers accounts acct goodType maxOffer demand balance).market.account).locked
        = false ∧
      (NewBasicMarket offers accounts acct goodType maxOffer demand balance).market.bought = [] ∧
      (NewBasicMarket offers accounts acct goodType maxOffer demand balance).market.sellerOffers
        = [] ∧
      (NewBasicMarket offers accounts acct goodType maxOffer demand balance).market.currentOffer
        = none ∧
      (NewBasicMarket offers accounts acct goodType maxOffer demand balance).offers = offers := by
  have hmod : (((moneyOfInt maxOffer : Nat) : Int)) = maxOffer % 2 ^ 64 := by
    unfold moneyOfInt moneyMod wordBits
    have h0 : (0 : Int) ≤ maxOffer % ((2 ^ 64 : Nat) : Int) :=
      Int.emod_nonneg _ (by norm_num)
    rw [Int.toNat_of_nonneg h0]
    norm_num
  refine ⟨rfl, hmod, ?_, rfl, ?_, ?_, rfl, rfl, rfl, rfl⟩
  · intro h0 h1
    show ((moneyOfInt maxOffer : Nat) : Int) = maxOffer
    rw [hmod]
    exact Int.emod_eq_of_lt h0 h1
  · simp [NewBasicMarket, setAccount, NewSellerAccount, SellerAccount.Balance]
  · simp [NewBasicMarket, setAccount, NewSellerAccount]

/-! ## AddOffer -/

/-- Claim C13: `AddOffer(o)` fails with the single-good error exactly when `o`
does not carry exactly one good (also when it carries none: `o.goods[0]` is
then not read); for an offer with exactly one good it fails with the
invalid-good-type error exactly when the kind of that good differs from the
good kind of the market; on every failure the state is as before.  On success
`o` is appended to the pending offers and nothing else changes. -/
theorem AddOffer_cases (s : State) (o : Nat) :
    ((AddOffer s o).2 = some MarketError.singleGoodOnly ↔ (s.offers o).goods.length ≠ 1) ∧
      (∀ g, (s.offers o).goods = [g] →
        ((AddOffer s o).2 = some MarketError.invalidGoodType ↔ g.Type_ ≠ s.market.goodType)) ∧
      (∀ g, (s.offers o).goods = [g] → g.Type_ = s.market.goodType → (AddOffer s o).2 = none) ∧
      (∀ e, (AddOffer s o).2 = some e → (AddOffer s o).1 = s) ∧
      ((AddOffer s o).2 = none →
        (AddOffer s o).1 =
          { s with market := { s.market with sellerOffers := s.market.sellerOffers ++ [o] } }) := by
  have hfail : ∀ e, (AddOffer s o).2 = some e → (AddOffer s o).1 = s := fun e he =>
    AddOffer_error s (AddOffer s o).1 o e (Prod.ext rfl he)
  have hok : (AddOffer s o).2 = none → (AddOffer s o).1 =
      { s with market := { s.market with sellerOffers := s.market.sellerOffers ++ [o] } } :=
    fun he => (AddOffer_ok s (AddOffer s o).1 o (Prod.ext rfl he)).2
  by_cases hlen : (s.offers o).goods.length ≠ 1
  · have hA : AddOffer s o = (s, some MarketError.singleGoodOnly) := by
      simp [AddOffer, hlen]
    refine ⟨?_, ?_, ?_, hfail, hok⟩
    · rw [hA]
      exact ⟨fun _ => hlen, fun _ => rfl⟩
    · intro g hg
      rw [hg] at hlen
      simp at hlen
    · intro g hg
      rw [hg] at hlen
      simp at hlen
  · have hlen1 : (s.offers o).goods.length = 1 := by
      by_contra h0
      exact hlen h0
    obtain ⟨g0, hg0⟩ := List.length_eq_one.mp hlen1
    by_cases hty : g0.Type_ ≠ s.market.goodType
    · have hA : AddOffer s o = (s, some MarketError.invalidGoodType) := by
        simp [AddOffer, hg0, hty]
      refine ⟨?_, ?_, ?_, hfail, hok⟩
      · rw [hA]
        exact ⟨fun h1 => by simp at h1, fun h1 => absurd hlen1 h1⟩
      · intro g hg
        rw [hg0] at hg
        simp only [List.cons.injEq, and_true] at hg
        subst hg
        rw [hA]
        exact ⟨fun _ => hty, fun _ => rfl⟩
      · intro g hg hgt
        rw [hg0] at hg
        simp only [List.cons.injEq, and_true] at hg
        subst hg
        exact absurd hgt hty
    · have hty1 : g0.Type_ = s.market.goodType := by
        by_contra h0
        exact hty h0
      have hA : AddOffer s o =
          ({ s with market := { s.market with sellerOffers := s.market.sellerOffers ++ [o] } },
            none) := by
        simp [AddOffer, hg0, hty1]
      refine ⟨?_, ?_, ?_, hfail, hok⟩
      · rw [hA]
        exact ⟨fun h1 => by simp at h1, fun h1 => absurd hlen1 h1⟩
      · intro g hg
        rw [hg0] at hg
        simp only [List.cons.injEq, and_true] at hg
        subst hg
        rw [hA]
        exact ⟨fun h1 => by simp at h1, fun h1 => absurd hty1 h1⟩
      · intro g hg _
        rw [hA]

/-! ## TransactOffer -/

/-- Claim C14: when `TransactOffer(c)` succeeds, the bought goods afterwards
are the bought goods before followed by the goods of the offer of `c` in their
order, the current counter is cleared, and the pending offers, the ceiling,
the demand (and the good kind and the offers themselves) are as before. -/
theorem TransactOffer_success (s s1 : State) (c : MarketCounter)
    (h : TransactOffer s c = Outcome.returned (s1, none)) :
    s1.market.bought = s.market.bought ++ (s.offers c.sellerOffer).goods ∧
      s1.market.currentOffer = none ∧
      s1.market.sellerOffers = s.market.sellerOffers ∧
      s1.market.maxOffer = s.market.maxOffer ∧
      s1.market.demand = s.market.demand ∧
      s1.market.goodType = s.market.goodType ∧
      s1.market.account = s.market.account ∧
      s1.offers = s.offers := by
  obtain ⟨_, _, ho, hm⟩ := TransactOffer_ok s s1 c h
  rw [hm]
  exact ⟨rfl, rfl, rfl, rfl, rfl, rfl, rfl, ho⟩

/-- Witness of C14 on the first test scenario: the counter at price 1 is
transacted and the one Meat good of the offer is bought. -/
theorem TransactOffer_success_witness :
    TransactOffer scenarioOneCountered { sellerOffer := 1, price := 1 } =
        Outcome.returned
          (((TransactOffer scenarioOneCountered { sellerOffer := 1, price := 1 }).valueD
            (scenarioOneCountered, none)).1, none) ∧
      ((TransactOffer scenarioOneCountered { sellerOffer := 1, price := 1 }).valueD
          (scenarioOneCountered, none)).1.market.bought =
        [{ Type_ := Meat, Refinement := 0 }] ∧
      ((TransactOffer scenarioOneCountered { sellerOffer := 1, price := 1 }).valueD
          (scenarioOneCountered, none)).1.market.currentOffer = none :=
  ⟨rfl,
    (TransactOffer_success scenarioOneCountered _ { sellerOffer := 1, price := 1 } rfl).1,
    (TransactOffer_success scenarioOneCountered _ { sellerOffer := 1, price := 1 } rfl).2.1⟩

/-- The only error `Transfer` returns is the one of `Withdraw`. -/
theorem Transfer_error_kind (amount payer : Nat) (payee : Option Nat)
    (accounts accounts1 : Nat → SellerAccount) (e : MarketError)
    (h : Transfer amount payer payee accounts = Outcome.returned (accounts1, some e)) :
    e = MarketError.notEnoughMoney := by
  unfold Transfer at h
  split at h
  · simp at h
  · simp only at h
    unfold SellerAccount.Withdraw at h
    split_ifs at h
    · simp at h
    · simp only [Outcome.returned.injEq, Prod.mk.injEq, Option.some.injEq] at h
      exact h.2.symm

/-- With a current counter for the offer of `c` and the demand open,
`TransactOffer(c)` calls `Transfer` and returns what follows from its result. -/
theorem TransactOffer_of_open (s : State) (c cur : MarketCounter)
    (h : s.market.currentOffer = some cur) (heq : cur.sellerOffer = c.sellerOffer)
    (hd : ¬ (s.market.bought.length : Int) ≥ s.market.demand) :
    TransactOffer s c =
      match Transfer c.price s.market.account (s.offers c.sellerOffer).account s.accounts with
      | Outcome.blocked => Outcome.blocked
      | Outcome.returned (accounts, some err) =>
        Outcome.returned ({ s with accounts := accounts }, some err)
      | Outcome.returned (accounts, none) =>
        Outcome.returned
          ({ s with
              accounts := accounts
              market :=
                { s.market with
                  bought := s.market.bought ++ (s.offers c.sellerOffer).goods
                  currentOffer := none } }, none) := by
  unfold TransactOffer
  rw [h]
  simp only [heq, ne_eq, not_true_eq_false, if_false, if_neg hd]

/-- With a current counter for the offer of `c` and the demand open, the only
error `TransactOffer(c)` returns is the one of `Withdraw`. -/
theorem TransactOffer_open_error_kind (s : State) (c cur : MarketCounter) (e : MarketError)
    (h : s.market.currentOffer = some cur) (heq : cur.sellerOffer = c.sellerOffer)
    (hd : ¬ (s.market.bought.length : Int) ≥ s.market.demand)
    (he : (TransactOffer s c).value?.map Prod.snd = some (some e)) :
    e = MarketError.notEnoughMoney := by
  rw [TransactOffer_of_open s c cur h heq hd] at he
  cases hT : Transfer c.price s.market.account (s.offers c.sellerOffer).account s.accounts with
  | blocked =>
    rw [hT] at he
    simp [Outcome.value?] at he
  | returned v =>
    obtain ⟨accounts1, e1⟩ := v
    rw [hT] at he
    cases e1 with
    | none => simp [Outcome.value?] at he
    | some err =>
      simp only [Outcome.value?, Option.map_some', Option.some.injEq] at he
      rw [← he]
      exact Transfer_error_kind _ _ _ _ _ _ hT

/-- Claim C18: `TransactOffer(c)` tests in this order.  It fails with the
no-offers-available error exactly when there is no current counter; with a
current counter, it fails with the stale-offer error exactly when the offer of
`c` is not the offer of the current counter; with the same offer, it fails with
the demand-satisfied error exactly when `len(bought) >= demand`; each of these
three failures leaves the state, accounts included, as it was.  Only when none
of the three holds is `Transfer` called, and the result is then the one that
follows from the result of `Transfer`. -/
theorem TransactOffer_order (s : State) (c : MarketCounter) :
    (((TransactOffer s c).value?.map Prod.snd = some (some MarketError.noOffersAvailable)) ↔
        s.market.currentOffer = none) ∧
      (∀ cur, s.market.currentOffer = some cur →
        (((TransactOffer s c).value?.map Prod.snd =
            some (some MarketError.offerNoLongerCurrent)) ↔
          cur.sellerOffer ≠ c.sellerOffer)) ∧
      (∀ cur, s.market.currentOffer = some cur → cur.sellerOffer = c.sellerOffer →
        (((TransactOffer s c).value?.map Prod.snd =
            some (some MarketError.marketDemandSatisfied)) ↔
          (s.market.bought.length : Int) ≥ s.market.demand)) ∧
      ((s.market.currentOffer = none ∨
          ∃ cur, s.market.currentOffer = some cur ∧
            (cur.sellerOffer ≠ c.sellerOffer ∨
              (s.market.bought.length : Int) ≥ s.market.demand)) →
        ∃ e, TransactOffer s c = Outcome.returned (s, some e)) ∧
      (∀ cur, s.market.currentOffer = some cur → cur.sellerOffer = c.sellerOffer →
        ¬ (s.market.bought.length : Int) ≥ s.market.demand →
        TransactOffer s c =
          match Transfer c.price s.market.account (s.offers c.sellerOffer).account s.accounts with
          | Outcome.blocked => Outcome.blocked
          | Outcome.returned (accounts, some err) =>
            Outcome.returned ({ s with accounts := accounts }, some err)
          | Outcome.returned (accounts, none) =>
            Outcome.returned
              ({ s with
                  accounts := accounts
                  market :=
                    { s.market with
                      bought := s.market.bought ++ (s.offers c.sellerOffer).goods
                      currentOffer := none } }, none)) := by
  refine ⟨?_, ?_, ?_, ?_, ?_⟩
  · constructor
    · intro he
      cases hcur : s.market.currentOffer with
      | none => rfl
      | some cur =>
        exfalso
        by_cases hne : cur.sellerOffer ≠ c.sellerOffer
        · rw [TransactOffer_of_other_offer s c cur hcur hne] at he
          simp [Outcome.value?] at he
        · have heq : cur.sellerOffer = c.sellerOffer := by
            by_contra h0
            exact hne h0
          by_cases hd : (s.market.bought.length : Int) ≥ s.market.demand
          · rw [TransactOffer_of_demand_met s c cur hcur heq hd] at he
            simp [Outcome.value?] at he
          · have := TransactOffer_open_error_kind s c cur _ hcur heq hd he
            simp at this
    · intro hnone
      rw [TransactOffer_of_no_counter s c hnone]
      rfl
  · intro cur hcur
    constructor
    · intro he hsame
      by_cases hd : (s.market.bought.length : Int) ≥ s.market.demand
      · rw [TransactOffer_of_demand_met s c cur hcur hsame hd] at he
        simp [Outcome.value?] at he
      · have := TransactOffer_open_error_kind s c cur _ hcur hsame hd he
        simp at this
    · intro hne
      rw [TransactOffer_of_other_offer s c cur hcur hne]
      rfl
  · intro cur hcur heq
    constructor
    · intro he
      by_contra hd
      have := TransactOffer_open_error_kind s c cur _ hcur heq hd he
      simp at this
    · intro hd
      rw [TransactOffer_of_demand_met s c cur hcur heq hd]
      rfl
  · intro h
    rcases h with hnone | ⟨cur, hcur, hne | hd⟩
    · exact ⟨_, TransactOffer_of_no_counter s c hnone⟩
    · exact ⟨_, TransactOffer_of_other_offer s c cur hcur hne⟩
    · by_cases hne : cur.sellerOffer ≠ c.sellerOffer
      · exact ⟨_, TransactOffer_of_other_offer s c cur hcur hne⟩
      · have heq : cur.sellerOffer = c.sellerOffer := by
          by_contra h0
          exact hne h0
        exact ⟨_, TransactOffer_of_demand_met s c cur hcur heq hd⟩
  · intro cur hcur heq hd
    exact TransactOffer_of_open s c cur hcur heq hd

/-! ## The sorted order and the best offer -/

theorem stableInsert_sorted (offers : Nat → SellerOffer) (x : Nat) (l : List Nat)
    (h : l.Pairwise (fun a b => (offers a).price ≤ (offers b).price)) :
    (stableInsert offers x l).Pairwise (fun a b => (offers a).price ≤ (offers b).price) := by
  induction l with
  | nil => simp [stableInsert]
  | cons y l ih =>
    obtain ⟨hy, hl⟩ := List.pairwise_cons.mp h
    unfold stableInsert
    by_cases hlt : (offers y).price < (offers x).price
    · simp only [ByOfferPrice.Less, hlt, decide_True, if_true]
      refine List.pairwise_cons.mpr ⟨?_, ih hl⟩
      intro b hb
      have hb1 := (stableInsert_perm offers x l).subset hb
      rcases List.mem_cons.mp hb1 with hbx | hbl
      · rw [hbx]
        omega
      · exact hy b hbl
    · simp only [ByOfferPrice.Less, hlt, decide_False, Bool.false_eq_true, if_false]
      refine List.pairwise_cons.mpr ⟨?_, h⟩
      intro b hb
      rcases List.mem_cons.mp hb with hby | hbl
      · rw [hby]
        omega
      · have := hy b hbl
        omega

theorem sortStable_sorted (offers : Nat → SellerOffer) (l : List Nat) :
    (sortStable offers l).Pairwise (fun a b => (offers a).price ≤ (offers b).price) := by
  induction l with
  | nil => simp [sortStable]
  | cons x l ih =>
    unfold sortStable
    exact stableInsert_sorted offers x _ ih

/-- Claim C17: when `ConsiderOffers` succeeds, the offer of the returned
counter was pending before the call, and its unit price is at most the unit
price of every offer that was pending before the call and of every offer that
is pending after it. -/
theorem ConsiderOffers_lowest_price (s s1 : State) (c : MarketCounter)
    (h : ConsiderOffers s = (s1, Except.ok c)) :
    c.sellerOffer ∈ s.market.sellerOffers ∧
      (∀ o ∈ s.market.sellerOffers, (s.offers c.sellerOffer).price ≤ (s.offers o).price) ∧
      (∀ o ∈ s1.market.sellerOffers, (s.offers c.sellerOffer).price ≤ (s.offers o).price) := by
  obtain ⟨_, _, rest, hsort, _, hs1⟩ := ConsiderOffers_ok s s1 c h
  have hperm := sortStable_perm s.offers s.market.sellerOffers
  have hsorted := sortStable_sorted s.offers s.market.sellerOffers
  rw [hsort] at hperm hsorted
  obtain ⟨hhead, _⟩ := List.pairwise_cons.mp hsorted
  have hrest : s1.market.sellerOffers = rest := by rw [hs1]
  refine ⟨hperm.subset (List.mem_cons_self _ _), ?_, ?_⟩
  · intro o ho
    rcases List.mem_cons.mp (hperm.symm.subset ho) with hoc | hor
    · rw [hoc]
    · exact hhead o hor
  · intro o ho
    rw [hrest] at ho
    exact hhead o ho

/-- Witness of C17 on three pending offers: the offers at addresses 2, 1 and 4
are pending at prices 2, 1 and 1; `ConsiderOffers` returns the counter for the
offer at address 1, which is not the first pending one, and leaves the offers
at addresses 4 and 2 pending; the price 1 of the returned offer is at most the
price of each of the three offers pending before and of the two pending after. -/
theorem ConsiderOffers_lowest_price_witness :
    (threePending.market.sellerOffers = [2, 1, 4] ∧
        (threePending.offers 2).price = 2 ∧ (threePending.offers 1).price = 1 ∧
        (threePending.offers 4).price = 1 ∧
        ConsiderOffers threePending =
          ((ConsiderOffers threePending).1, Except.ok { sellerOffer := 1, price := 1 }) ∧
        (ConsiderOffers threePending).1.market.sellerOffers = [4, 2]) ∧
      ((1 : Nat) ∈ threePending.market.sellerOffers ∧
        (∀ o ∈ threePending.market.sellerOffers,
          (threePending.offers 1).price ≤ (threePending.offers o).price) ∧
        (∀ o ∈ (ConsiderOffers threePending).1.market.sellerOffers,
          (threePending.offers 1).price ≤ (threePending.offers o).price)) :=
  ⟨⟨by decide, by decide, by decide, by decide, rfl, by decide⟩,
    ConsiderOffers_lowest_price threePending (ConsiderOffers threePending).1
      { sellerOffer := 1, price := 1 } rfl⟩

/-! ## One-shot offers -/

/-- A successful `ConsiderOffers` takes exactly the offer of its counter out of
the pending offers. -/
theorem ConsiderOffers_removes (s s1 : State) (c : MarketCounter)
    (h : ConsiderOffers s = (s1, Except.ok c)) :
    (c.sellerOffer :: s1.market.sellerOffers).Perm s.market.sellerOffers := by
  obtain ⟨_, _, rest, hsort, _, hs1⟩ := ConsiderOffers_ok s s1 c h
  have hperm := sortStable_perm s.offers s.market.sellerOffers
  rw [hsort] at hperm
  have hrest : s1.market.sellerOffers = rest := by rw [hs1]
  rw [hrest]
  exact hperm

/-- No offer is considered in a run more often than it is pending at the start
or admitted in the run. -/
theorem considered_count_le (a : Nat) (calls : List Call) (s : State) :
    (considered s calls).count a ≤
      s.market.sellerOffers.count a + (admitted s calls).count a := by
  induction calls generalizing s with
  | nil => simp [considered, admitted]
  | cons k ks ih =>
    cases k with
    | addOffer o =>
      cases hA : AddOffer s o with
      | mk s2 e =>
        cases e with
        | some err =>
          have h2 := AddOffer_error s s2 o err hA
          subst h2
          simpa [considered, admitted, perform, hA] using ih s2
        | none =>
          obtain ⟨_, hs2⟩ := AddOffer_ok s s2 o hA
          have h := ih s2
          have hr : s2.market.sellerOffers = s.market.sellerOffers ++ [o] := by rw [hs2]
          rw [hr] at h
          simp only [considered, admitted, perform, hA]
          simp only [List.count_append, List.count_cons, List.count_nil] at h ⊢
          omega
    | considerOffers =>
      cases hC : ConsiderOffers s with
      | mk s2 e =>
        cases e with
        | error err =>
          have h2 := ConsiderOffers_error s s2 err hC
          subst h2
          simpa [considered, admitted, perform, hC] using ih s2
        | ok c =>
          have hperm := (ConsiderOffers_removes s s2 c hC).count_eq a
          have h := ih s2
          simp only [considered, admitted, perform, hC]
          simp only [List.count_cons] at hperm ⊢
          omega
    | transactOffer c =>
      cases hT : TransactOffer s c with
      | blocked => simp [considered, admitted, perform, hT]
      | returned v =>
        obtain ⟨s2, e⟩ := v
        have h := ih s2
        cases e with
        | some err =>
          obtain ⟨_, hm⟩ := TransactOffer_error s s2 c err hT
          rw [hm] at h
          simpa [considered, admitted, perform, hT] using h
        | none =>
          obtain ⟨_, _, _, hm⟩ := TransactOffer_ok s s2 c hT
          rw [hm] at h
          simpa [considered, admitted, perform, hT] using h

/-- Claim C11 (one-shot offer): a successful `ConsiderOffers` removes exactly
the offer it returns from the pending offers (the returned offer followed by
the offers pending afterwards is a permutation of the offers pending before);
and in every run of calls on a new market in which no offer is admitted twice,
no offer is referenced by the counters of two successful `ConsiderOffers`
calls, whether or not a counter was transacted. -/
theorem one_shot_offer :
    (∀ (s s1 : State) (c : MarketCounter), ConsiderOffers s = (s1, Except.ok c) →
        (c.sellerOffer :: s1.market.sellerOffers).Perm s.market.sellerOffers) ∧
      (∀ (offers : Nat → SellerOffer) (accounts : Nat → SellerAccount) (acct : Nat)
        (goodType maxOffer demand : Int) (balance : Nat) (calls : List Call),
        (admitted (NewBasicMarket offers accounts acct goodType maxOffer demand balance)
          calls).Nodup →
        (considered (NewBasicMarket offers accounts acct goodType maxOffer demand balance)
          calls).Nodup) := by
  refine ⟨ConsiderOffers_removes, ?_⟩
  intro offers accounts acct goodType maxOffer demand balance calls hnd
  rw [List.nodup_iff_count_le_one] at hnd ⊢
  intro a
  have h := considered_count_le a calls
    (NewBasicMarket offers accounts acct goodType maxOffer demand balance)
  have h1 := hnd a
  simp only [NewBasicMarket, List.count_nil] at h h1
  simp only [NewBasicMarket]
  omega

/-- Witness of C11: offers 2, 1 and 4 are admitted once each and considered
once each, as 1, 4, 2. -/
theorem one_shot_offer_witness :
    (admitted (NewBasicMarket testOffers testAccounts 10 Meat 2 3 10) tieBreakCalls).Nodup ∧
      considered (NewBasicMarket testOffers testAccounts 10 Meat 2 3 10) tieBreakCalls =
        [1, 4, 2] ∧
      (considered (NewBasicMarket testOffers testAccounts 10 Meat 2 3 10) tieBreakCalls).Nodup :=
  ⟨by decide, rfl,
    one_shot_offer.2 testOffers testAccounts 10 Meat 2 3 10 tieBreakCalls (by decide)⟩

/-! ## The offers the market holds -/

/-- Every call that returns keeps the offers held by the market single-good
offers of the market kind, and keeps the offers and the good kind. -/
theorem perform_offersSingleGood (s s1 : State) (k : Call)
    (r : Except MarketError (Option MarketCounter)) (hinv : OffersSingleGood s)
    (h : perform s k = Outcome.returned (s1, r)) :
    OffersSingleGood s1 ∧ s1.offers = s.offers ∧ s1.market.goodType = s.market.goodType := by
  obtain ⟨hp, hc⟩ := hinv
  cases k with
  | addOffer o =>
    simp only [perform] at h
    cases hA : AddOffer s o with
    | mk s2 e =>
      rw [hA] at h
      cases e with
      | some err =>
        simp only [Outcome.returned.injEq, Prod.mk.injEq] at h
        have := AddOffer_error s s2 o err hA
        rw [← h.1, this]
        exact ⟨⟨hp, hc⟩, rfl, rfl⟩
      | none =>
        simp only [Outcome.returned.injEq, Prod.mk.injEq] at h
        obtain ⟨hsg, hs2⟩ := AddOffer_ok s s2 o hA
        rw [← h.1, hs2]
        refine ⟨⟨?_, hc⟩, rfl, rfl⟩
        intro o1 ho1
        simp only [List.mem_append, List.mem_singleton] at ho1
        rcases ho1 with ho1 | ho1
        · exact hp o1 ho1
        · rw [ho1]
          exact hsg
  | considerOffers =>
    simp only [perform] at h
    cases hC : ConsiderOffers s with
    | mk s2 e =>
      rw [hC] at h
      cases e with
      | error err =>
        simp only [Outcome.returned.injEq, Prod.mk.injEq] at h
        have := ConsiderOffers_error s s2 err hC
        rw [← h.1, this]
        exact ⟨⟨hp, hc⟩, rfl, rfl⟩
      | ok c =>
        simp only [Outcome.returned.injEq, Prod.mk.injEq] at h
        obtain ⟨_, _, rest, hsort, _, hs2⟩ := ConsiderOffers_ok s s2 c hC
        have hperm := sortStable_perm s.offers s.market.sellerOffers
        rw [hsort] at hperm
        rw [← h.1, hs2]
        refine ⟨⟨?_, ?_⟩, rfl, rfl⟩
        · intro o1 ho1
          exact hp o1 (hperm.subset (List.mem_cons_of_mem _ ho1))
        · intro cur hcur
          simp only [Option.some.injEq] at hcur
          rw [← hcur]
          exact hp _ (hperm.subset (List.mem_cons_self _ _))
  | transactOffer c =>
    simp only [perform] at h
    cases hT : TransactOffer s c with
    | blocked => simp [hT] at h
    | returned v =>
      obtain ⟨s2, e⟩ := v
      rw [hT] at h
      cases e with
      | some err =>
        simp only [Outcome.returned.injEq, Prod.mk.injEq] at h
        obtain ⟨ho, hm⟩ := TransactOffer_error s s2 c err hT
        rw [← h.1]
        refine ⟨⟨?_, ?_⟩, ho, by rw [hm]⟩
        · intro o1 ho1
          rw [hm] at ho1
          simpa [SingleGood, ho, hm] using hp o1 ho1
        · intro cur hcur
          rw [hm] at hcur
          simpa [SingleGood, ho, hm] using hc cur hcur
      | none =>
        simp only [Outcome.returned.injEq, Prod.mk.injEq] at h
        obtain ⟨_, _, ho, hm⟩ := TransactOffer_ok s s2 c hT
        rw [← h.1]
        refine ⟨⟨?_, ?_⟩, ho, by rw [hm]⟩
        · intro o1 ho1
          rw [hm] at ho1
          simpa [SingleGood, ho, hm] using hp o1 ho1
        · intro cur1 hcur1
          rw [hm] at hcur1
          simp at hcur1

/-- Every run that returns keeps the offers held by the market single-good
offers of the market kind. -/
theorem runCalls_offersSingleGood (calls : List Call) (s s1 : State)
    (hinv : OffersSingleGood s) (h : runCalls s calls = Outcome.returned s1) :
    OffersSingleGood s1 ∧ s1.offers = s.offers ∧ s1.market.goodType = s.market.goodType := by
  induction calls generalizing s with
  | nil =>
    simp only [runCalls, Outcome.returned.injEq] at h
    rw [← h]
    exact ⟨hinv, rfl, rfl⟩
  | cons k ks ih =>
    unfold runCalls at h
    cases hp : perform s k with
    | blocked => simp [hp] at h
    | returned v =>
      obtain ⟨s2, r⟩ := v
      rw [hp] at h
      obtain ⟨hi2, ho2, hg2⟩ := perform_offersSingleGood s s2 k r hinv hp
      obtain ⟨hi1, ho1, hg1⟩ := ih s2 hi2 h
      exact ⟨hi1, ho1.trans ho2, hg1.trans hg2⟩

/-- Claim C19: for every market made by `NewBasicMarket`, after every sequence
of `AddOffer`, `ConsiderOffers` and `TransactOffer` calls, every pending offer,
and the offer of the current counter when there is one, carries exactly one
good, and the kind of that good is the good kind of the market. -/
theorem held_offers_single_good (offers : Nat → SellerOffer) (accounts : Nat → SellerAccount)
    (acct : Nat) (goodType maxOffer demand : Int) (balance : Nat) (calls : List Call)
    (s : State)
    (h : runCalls (NewBasicMarket offers accounts acct goodType maxOffer demand balance) calls =
      Outcome.returned s) :
    (∀ o ∈ s.market.sellerOffers,
        ∃ g, (offers o).goods = [g] ∧ g.Type_ = goodType ∧ g.Type_ = s.market.goodType) ∧
      (∀ cur, s.market.currentOffer = some cur →
        ∃ g, (offers cur.sellerOffer).goods = [g] ∧ g.Type_ = goodType ∧
          g.Type_ = s.market.goodType) := by
  have h0 : OffersSingleGood
      (NewBasicMarket offers accounts acct goodType maxOffer demand balance) := by
    refine ⟨?_, ?_⟩
    · intro o ho
      simp [NewBasicMarket] at ho
    · intro cur hcur
      simp [NewBasicMarket] at hcur
  obtain ⟨⟨hp, hc⟩, ho, hg⟩ := runCalls_offersSingleGood calls _ s h0 h
  have ho1 : s.offers = offers := ho
  have hg1 : s.market.goodType = goodType := hg
  refine ⟨?_, ?_⟩
  · intro o hmem
    obtain ⟨g, hgoods, hty⟩ := hp o hmem
    rw [ho1] at hgoods
    exact ⟨g, hgoods, hty.trans hg1, hty⟩
  · intro cur hcur
    obtain ⟨g, hgoods, hty⟩ := hc cur hcur
    rw [ho1] at hgoods
    exact ⟨g, hgoods, hty.trans hg1, hty⟩

/-- Witness of C19: in a run with two refused and two admitted offers, the
offer at address 2 is current and nothing is pending at the end; it carries one Meat good. -/
theorem held_offers_single_good_witness :
    (runCalls (NewBasicMarket testOffers testAccounts 10 Meat 2 2 10) mixedCalls =
        Outcome.returned ((runCalls (testMarket Meat 2 2 10) mixedCalls).valueD
          (testMarket Meat 2 2 10)) ∧
      ((runCalls (testMarket Meat 2 2 10) mixedCalls).valueD
        (testMarket Meat 2 2 10)).market.currentOffer = some { sellerOffer := 2, price := 2 }) ∧
      ∃ g, (testOffers 2).goods = [g] ∧ g.Type_ = Meat ∧
        g.Type_ = ((runCalls (testMarket Meat 2 2 10) mixedCalls).valueD
          (testMarket Meat 2 2 10)).market.goodType :=
  ⟨⟨rfl, by decide⟩,
    (held_offers_single_good testOffers testAccounts 10 Meat 2 2 10 mixedCalls _ rfl).2
      { sellerOffer := 2, price := 2 } (by decide)⟩

/-! ## Transfer -/

/-- On a payer whose mutex is held `Transfer` does not return. -/
theorem Transfer_of_held (amount payer : Nat) (payee : Option Nat)
    (accounts : Nat → SellerAccount) (h : (accounts payer).locked = true) :
    Transfer amount payer payee accounts = Outcome.blocked := by
  simp [Transfer, SellerAccount.Lock, h]

/-- On a payer whose mutex is free and whose balance plus the amount stays
below `2 ^ 64`, `Transfer` succeeds and writes back the payer as it was. -/
theorem Transfer_of_no_wrap (amount payer : Nat) (payee : Option Nat)
    (accounts : Nat → SellerAccount) (hfree : (accounts payer).locked = false)
    (h : (accounts payer).balance + amount < 2 ^ 64) :
    Transfer amount payer payee accounts =
      Outcome.returned (setAccount accounts payer (accounts payer), none) := by
  have hmod : ((accounts payer).balance + amount) % moneyMod =
      (accounts payer).balance + amount := Nat.mod_eq_of_lt h
  have hle : amount ≤ (accounts payer).balance + amount := by omega
  have hacc : ({ balance := (accounts payer).balance, locked := false } : SellerAccount) =
      accounts payer := by
    cases hp : accounts payer with
    | mk b l =>
      rw [hp] at hfree
      simp only at hfree
      simp [hfree]
  simp only [Transfer, SellerAccount.Lock, hfree, SellerAccount.Deposit, SellerAccount.Withdraw,
    SellerAccount.Unlock, hmod, hle, if_true, Bool.false_eq_true, if_false,
    Nat.add_sub_cancel, hacc]

/-- On a payer whose mutex is free and whose balance plus the amount reaches
`2 ^ 64`, `Transfer` returns the error of `Withdraw`; the payer is written back
with the wrapped balance and the mutex held. -/
theorem Transfer_of_wrap (amount payer : Nat) (payee : Option Nat)
    (accounts : Nat → SellerAccount) (hfree : (accounts payer).locked = false)
    (hb : (accounts payer).balance < 2 ^ 64) (ha : amount < 2 ^ 64)
    (h : (accounts payer).balance + amount ≥ 2 ^ 64) :
    Transfer amount payer payee accounts =
      Outcome.returned
        (setAccount accounts payer
          { balance := (accounts payer).balance + amount - 2 ^ 64, locked := true },
          some MarketError.notEnoughMoney) := by
  have hmod : ((accounts payer).balance + amount) % moneyMod =
      (accounts payer).balance + amount - 2 ^ 64 := by
    unfold moneyMod wordBits
    rw [Nat.mod_eq_sub_mod h]
    exact Nat.mod_eq_of_lt (by omega)
  have hnle : ¬ amount ≤ (accounts payer).balance + amount - 2 ^ 64 := by omega
  simp only [Transfer, SellerAccount.Lock, hfree, SellerAccount.Deposit, SellerAccount.Withdraw,
    hmod, hnle, if_false, Bool.false_eq_true]

/-- Counterexample to C20 as stated: on a payer whose mutex is held `Transfer`
does not return, so it returns no error although balance plus amount is
`2 ^ 64`; and when payer and payee are the same account, with the mutex free,
the error is returned and the balance of the payee has gone from `2 ^ 64 - 1`
to 0. -/
theorem Transfer_held_or_same_account :
    ((heldPayerAccounts 10).balance + 1 ≥ 2 ^ 64 ∧
        transferSummary 10 (Transfer 1 10 (some 21) heldPayerAccounts) = none) ∧
      ((fullPayerAccounts 10).balance = 2 ^ 64 - 1 ∧ (fullPayerAccounts 10).locked = false ∧
        transferSummary 10 (Transfer 1 10 (some 10) fullPayerAccounts) =
          some (some MarketError.notEnoughMoney, 0, true)) := by
  decide

/-- Claim C20 as amended: with `Money` a 64-bit unsigned integer, on a payer
whose mutex is held `Transfer(amount, payer, payee)` does not return; on a
payer whose mutex is free it returns, and it returns an error exactly when
`payer.balance + amount >= 2 ^ 64`.  When it succeeds the balance of the payer,
and of every account, is what it was before the call; in both cases the
balance of every account other than the payer, so of a payee that is not the
payer itself, is untouched. -/
theorem Transfer_cases (amount payer : Nat) (payee : Option Nat)
    (accounts : Nat → SellerAccount)
    (hb : (accounts payer).balance < 2 ^ 64) (ha : amount < 2 ^ 64) :
    ((accounts payer).locked = true →
        Transfer amount payer payee accounts = Outcome.blocked) ∧
      ((accounts payer).locked = false →
        ∃ accounts1 e, Transfer amount payer payee accounts = Outcome.returned (accounts1, e) ∧
          (e ≠ none ↔ (accounts payer).balance + amount ≥ 2 ^ 64) ∧
          (e = none → ∀ q, (accounts1 q).balance = (accounts q).balance) ∧
          (∀ q, q ≠ payer → accounts1 q = accounts q) ∧
          (∀ q, payee = some q → q ≠ payer →
            (accounts1 q).balance = (accounts q).balance)) := by
  refine ⟨Transfer_of_held amount payer payee accounts, ?_⟩
  intro hfree
  by_cases h : (accounts payer).balance + amount < 2 ^ 64
  · refine ⟨_, _, Transfer_of_no_wrap amount payer payee accounts hfree h, ?_, ?_, ?_, ?_⟩
    · exact ⟨fun h1 => absurd rfl h1, fun h1 => by omega⟩
    · intro _ q
      by_cases hq : q = payer
      · simp [setAccount, hq]
      · simp [setAccount, hq]
    · intro q hq
      simp [setAccount, hq]
    · intro q _ hq
      simp [setAccount, hq]
  · refine ⟨_, _, Transfer_of_wrap amount payer payee accounts hfree hb ha (by omega),
      ?_, ?_, ?_, ?_⟩
    · exact ⟨fun _ => by omega, fun _ => by simp⟩
    · intro h1
      simp at h1
    · intro q hq
      simp [setAccount, hq]
    · intro q _ hq
      simp [setAccount, hq]

/-- Witness of C20 as amended: a transfer of 4 from a payer that holds 10 to a
payee that holds 3 succeeds and leaves 3 in the account of the payee. -/
theorem Transfer_cases_witness :
    ((payerPayeeAccounts 10).balance < 2 ^ 64 ∧ (4 : Nat) < 2 ^ 64 ∧
        (payerPayeeAccounts 10).locked = false) ∧
      transferSummary 21 (Transfer 4 10 (some 21) payerPayeeAccounts) = some (none, 3, false) ∧
      ∃ accounts1 e, Transfer 4 10 (some 21) payerPayeeAccounts =
          Outcome.returned (accounts1, e) ∧
        (e ≠ none ↔ (payerPayeeAccounts 10).balance + 4 ≥ 2 ^ 64) ∧
        (e = none → ∀ q, (accounts1 q).balance = (payerPayeeAccounts q).balance) ∧
        (∀ q, q ≠ 10 → accounts1 q = payerPayeeAccounts q) ∧
        (∀ q, some 21 = some q → q ≠ 10 →
          (accounts1 q).balance = (payerPayeeAccounts q).balance) :=
  ⟨⟨by decide, by decide, by decide⟩, by decide,
    (Transfer_cases 4 10 (some 21) payerPayeeAccounts (by decide) (by decide)).2 (by decide)⟩

/-! ## The claims without a leading hypothesis, on the test data -/

/-- Witness of C10 on the fourth test scenario: with an offer pending and the
demand met, `ConsiderOffers` fails with the demand-satisfied error. -/
theorem ConsiderOffers_failure_cases_witness :
    (scenarioFourBought.market.sellerOffers ≠ [] ∧
        (scenarioFourBought.market.bought.length : Int) ≥ scenarioFourBought.market.demand) ∧
      (ConsiderOffers scenarioFourBought).2 = Except.error MarketError.marketDemandSatisfied :=
  ⟨⟨by decide, by decide⟩,
    ((ConsiderOffers_failure_cases scenarioFourBought).2.1 (by decide)).mpr (by decide)⟩

/-- Witness of C12 on `TestAccountWithdraw`: 1 withdrawn from a balance of 1 leaves `1 - 1`. -/
theorem Withdraw_error_iff_witness :
    ¬ 1 > (NewSellerAccount 1).balance ∧
      ((NewSellerAccount 1).Withdraw 1).1.Balance = (NewSellerAccount 1).balance - 1 :=
  ⟨by decide, ((Withdraw_error_iff (NewSellerAccount 1) 1).2.2.2 (by decide)).2.1⟩

/-- Witness of C13 on the third test scenario: the Fur offer is refused by the
Meat market with the invalid-good-type error. -/
theorem AddOffer_cases_witness :
    ((testMarket Meat 1 1 10).offers 3).goods = [{ Type_ := Fur, Refinement := 0 }] ∧
      (AddOffer (testMarket Meat 1 1 10) 3).2 = some MarketError.invalidGoodType :=
  ⟨rfl, ((AddOffer_cases (testMarket Meat 1 1 10) 3).2.1 { Type_ := Fur, Refinement := 0 }
    rfl).mpr (by decide)⟩

/-- Witness of C15 on `TestAccountDeposit`: 5 deposited into a balance of 0 gives `0 + 5`. -/
theorem Deposit_balance_witness :
    (NewSellerAccount 0).balance + 5 < 2 ^ 64 ∧
      ((NewSellerAccount 0).Deposit 5).Balance = (NewSellerAccount 0).balance + 5 :=
  ⟨by decide, (Deposit_balance (NewSellerAccount 0) 5).2.1 (by decide)⟩

/-- Witness of C16 on `ExampleMarketConstruction`: the market made with
ceiling 2 has the ceiling 2. -/
theorem NewBasicMarket_fields_witness :
    ((0 : Int) ≤ 2 ∧ (2 : Int) < 2 ^ 64) ∧
      (((NewBasicMarket testOffers testAccounts 10 Fur 2 3 3).market.maxOffer : Nat) : Int) = 2 :=
  ⟨⟨by decide, by decide⟩,
    (NewBasicMarket_fields testOffers testAccounts 10 Fur 2 3 3).2.2.1 (by decide) (by decide)⟩

/-- Witness of C18: with the counter for the offer at address 1 current, a
counter for the offer at address 2 gets the stale-offer error. -/
theorem TransactOffer_order_witness :
    scenarioOneCountered.market.currentOffer = some { sellerOffer := 1, price := 1 } ∧
      (TransactOffer scenarioOneCountered { sellerOffer := 2, price := 1 }).value?.map Prod.snd =
        some (some MarketError.offerNoLongerCurrent) :=
  ⟨by decide,
    ((TransactOffer_order scenarioOneCountered { sellerOffer := 2, price := 1 }).2.1
      { sellerOffer := 1, price := 1 } (by decide)).mpr (by decide)⟩

end Market
